import Mathlib

set_option maxHeartbeats 1000000

/-!
Shallow embedding of the Wave-Function-Collapse core of the Void repository
(src/game/core_mechanics/oz_devinimli_yaratim/wfccore.rs together with the
rule catalog in odyrules/commons.rs and odyrules/open_space_rules.rs and the
streaming policy in cells.rs).

Conventions of the embedding:
- bevy Entity handles are modelled as Nat.
- HashMap lookups are modelled as Option-valued functions (for the rule
  catalog) or as association lists (for the spatial index and the set of
  live cells, which the systems iterate over).
- The nested HashMap allowed_neighbors is embedded as one curried function
  TileType -> Direction -> Option (List TileType); a tile with no outer
  entry is the function returning none for every direction.
- f32 weights and world coordinates are modelled as rationals; the random
  values drawn by rand are passed in as explicit parameters.
- i32 arithmetic is modelled on Int (the quantities involved are cell
  counts and small grid coordinates, far from the 2^31 wrap).
-/

namespace VoidWFC

/-- Tile kinds, from the closed TileType enumeration in odyrules/commons.rs. -/
inductive TileType where
  | Ground
  | Tree
  | Chest
  | FountainCenter
  | FountainCorner1
  | FountainCorner2
  | FountainCorner3
  | FountainCorner4
  | FountainEdge1
  | FountainEdge2
  | FountainEdge3
  | FountainEdge4
  deriving DecidableEq

/-- The four cardinal directions iterated by wfccore.rs (DIRECTION_VECTORS). -/
inductive Direction where
  | Front
  | Back
  | Right
  | Left
  deriving DecidableEq

/-- wfccore.rs get_opposite_direction. -/
def get_opposite_direction : Direction → Direction
  | Direction.Front => Direction.Back
  | Direction.Back => Direction.Front
  | Direction.Right => Direction.Left
  | Direction.Left => Direction.Right

/-- commons.rs DIRECTION_VECTORS: direction to (x, z) grid delta. -/
def DIRECTION_VECTORS : List (Direction × Int × Int) :=
  [(Direction.Front, 0, 1), (Direction.Back, 0, -1),
   (Direction.Right, 1, 0), (Direction.Left, -1, 0)]

/-- The rule catalog resource (WFCRules in wfccore.rs; structurally identical
to OpenSpaceRules in odyrules/open_space_rules.rs): adjacency lists, the seed
tile list, and spawn weights. -/
structure WFCRules where
  allowed_neighbors : TileType → Direction → Option (List TileType)
  all_tiles : List TileType
  weights : TileType → Option ℚ

/-- wfccore.rs filter_valid_tiles: retain only the candidates allowed by the
rule entry of the collapsed neighbor tile, looked up at the OPPOSITE of the
traversal direction; a missing entry leaves the candidate list untouched. -/
def filter_valid_tiles (valid_tiles : List TileType) (neighbor_tile : TileType)
    (direction : Direction) (rules : WFCRules) : List TileType :=
  match rules.allowed_neighbors neighbor_tile (get_opposite_direction direction) with
  | some allowed_tiles => valid_tiles.filter (fun tile => decide (tile ∈ allowed_tiles))
  | none => valid_tiles

/-- The Cell component of wfccore.rs. -/
structure Cell where
  is_collapsed : Bool
  tile_type : Option TileType
  entropy : Int
  valid_tiles : List TileType
  position : Int × Int
  deriving DecidableEq

/-- Cell::new in wfccore.rs. -/
def Cell.new (all_tiles : List TileType) (position : Int × Int) : Cell :=
  { is_collapsed := false
    tile_type := none
    entropy := (all_tiles.length : Int)
    valid_tiles := all_tiles
    position := position }

/-- Cell::is_contradiction in wfccore.rs. -/
def Cell.is_contradiction (c : Cell) : Bool :=
  c.valid_tiles.isEmpty && !c.is_collapsed

/-- The set of live cells reachable through the ECS Query, as an association
list from entity handle to component value. -/
abbrev CellStore := List (Nat × Cell)

/-- CellSpatialIndex.grid: association list from grid coordinate to entity. -/
abbrev SpatialGrid := List ((Int × Int) × Nat)

/-- Query::get on the cell store (first entry with the given handle). -/
def getCell : CellStore → Nat → Option Cell
  | [], _ => none
  | p :: rest, e => if p.1 = e then some p.2 else getCell rest e

/-- Writing back a cell through Query::get_mut: entities not present are
left untouched. -/
def setCell (cells : CellStore) (e : Nat) (c : Cell) : CellStore :=
  cells.map (fun p => if p.1 = e then (p.1, c) else p)

/-- HashMap::get on the spatial index. -/
def gridGet : SpatialGrid → (Int × Int) → Option Nat
  | [], _ => none
  | p :: rest, pos => if p.1 = pos then some p.2 else gridGet rest pos

/-- All entity handles stored in the spatial index. -/
def gridVals (grid : SpatialGrid) : List Nat := grid.map (fun p => p.2)

/-- One direction of CASE 1 of propagate_constraints (wfccore.rs lines
133-164): filter the uncollapsed neighbor against the collapsed tile,
re-enqueue it if its candidate count changed, and resolve a contradiction
to the Ground tile with entropy 1 (plus a second re-enqueue). -/
def case1Dir (rules : WFCRules) (grid : SpatialGrid) (tile : TileType)
    (position : Int × Int) (acc : CellStore × List Nat)
    (dv : Direction × Int × Int) : CellStore × List Nat :=
  let neighbor_pos : Int × Int := (position.1 + dv.2.1, position.2 + dv.2.2)
  match gridGet grid neighbor_pos with
  | none => acc
  | some neighbor_entity =>
    match getCell acc.1 neighbor_entity with
    | none => acc
    | some neighbor_cell =>
      if neighbor_cell.is_collapsed then acc
      else
        let prev_valid_count := neighbor_cell.valid_tiles.length
        let new_valid := filter_valid_tiles neighbor_cell.valid_tiles tile dv.1 rules
        let pushes1 :=
          if new_valid.length ≠ prev_valid_count then acc.2 ++ [neighbor_entity] else acc.2
        let updated := { neighbor_cell with valid_tiles := new_valid }
        if updated.is_contradiction then
          (setCell acc.1 neighbor_entity
            { updated with valid_tiles := [TileType.Ground], entropy := 1 },
           pushes1 ++ [neighbor_entity])
        else
          (setCell acc.1 neighbor_entity updated, pushes1)

/-- CASE 1 of propagate_constraints: iterate case1Dir over all four
directions, accumulating cell updates and queue pushes. -/
def case1Fold (rules : WFCRules) (grid : SpatialGrid) (tile : TileType)
    (position : Int × Int) (cells : CellStore) : CellStore × List Nat :=
  DIRECTION_VECTORS.foldl (case1Dir rules grid tile position) (cells, [])

/-- One direction of CASE 2 of propagate_constraints (wfccore.rs lines
166-192): narrow the running candidate list against a collapsed neighbor,
tracking whether any direction changed the count. -/
def case2Dir (rules : WFCRules) (grid : SpatialGrid) (cells : CellStore)
    (position : Int × Int) (acc : List TileType × Bool)
    (dv : Direction × Int × Int) : List TileType × Bool :=
  let neighbor_pos : Int × Int := (position.1 + dv.2.1, position.2 + dv.2.2)
  match gridGet grid neighbor_pos with
  | none => acc
  | some neighbor_entity =>
    match getCell cells neighbor_entity with
    | none => acc
    | some neighbor_cell =>
      if neighbor_cell.is_collapsed then
        match neighbor_cell.tile_type with
        | some neighbor_tile =>
          let prev_count := acc.1.length
          let filtered := filter_valid_tiles acc.1 neighbor_tile dv.1 rules
          (filtered, acc.2 || decide (filtered.length ≠ prev_count))
        | none => acc
      else acc

/-- CASE 2 of propagate_constraints: recompute the candidate list of an
uncollapsed cell from all collapsed neighbors. -/
def case2Fold (rules : WFCRules) (grid : SpatialGrid) (cells : CellStore)
    (position : Int × Int) (valid_tiles : List TileType) : List TileType × Bool :=
  DIRECTION_VECTORS.foldl (case2Dir rules grid cells position) (valid_tiles, false)

/-- Processing of one dequeued entity by propagate_constraints: read the cell
snapshot, then run CASE 1 (collapsed) or CASE 2 (uncollapsed, commit only if
changed, with the Ground contradiction fallback). Returns the updated store
and the entities pushed onto the queue. -/
def processCell (rules : WFCRules) (grid : SpatialGrid) (entity : Nat)
    (cells : CellStore) : CellStore × List Nat :=
  match getCell cells entity with
  | none => (cells, [])
  | some cell =>
    if cell.is_collapsed then
      match cell.tile_type with
      | some tile => case1Fold rules grid tile cell.position cells
      | none => (cells, [])
    else
      let res := case2Fold rules grid cells cell.position cell.valid_tiles
      if res.2 then
        match getCell cells entity with
        | some cur =>
          let updated := { cur with valid_tiles := res.1, entropy := (res.1.length : Int) }
          if updated.is_contradiction then
            (setCell cells entity { updated with valid_tiles := [TileType.Ground], entropy := 1 },
             [])
          else
            (setCell cells entity updated, [])
        | none => (cells, [])
      else (cells, [])

/-- The drain loop of propagate_constraints (wfccore.rs lines 105-207),
written with explicit fuel: pop the front entity, skip it when already in
the processed set, otherwise process it and append its pushes. Returns none
only when the fuel runs out with a non-empty queue. -/
def propagateGo (rules : WFCRules) (grid : SpatialGrid) (fuel : Nat)
    (queue : List Nat) (processed : Finset Nat) (cells : CellStore) :
    Option CellStore :=
  match queue with
  | [] => some cells
  | entity :: rest =>
    match fuel with
    | 0 => none
    | fuel' + 1 =>
      if entity ∈ processed then
        propagateGo rules grid fuel' rest processed cells
      else
        let step := processCell rules grid entity cells
        propagateGo rules grid fuel' (rest ++ step.2) (insert entity processed) step.1

/-- Iterator::min over the entropies, as used by collapse_lowest_entropy_cell. -/
def listMinInt : List Int → Option Int
  | [] => none
  | x :: xs =>
    match listMinInt xs with
    | none => some x
    | some m => some (min x m)

/-- HashMap::get(t).unwrap_or(1.0) on the weight table. -/
def weightOf (rules : WFCRules) (t : TileType) : ℚ :=
  (rules.weights t).getD 1

/-- The subtraction loop of get_random_tile: return the first tile whose
weight the remaining random mass does not exceed. -/
def drawLoop (rules : WFCRules) : ℚ → List TileType → Option TileType
  | _, [] => none
  | r, tile :: rest =>
    if r ≤ weightOf rules tile then some tile
    else drawLoop rules (r - weightOf rules tile) rest

/-- wfccore.rs get_random_tile with the sampled random value passed
explicitly: Ground for an empty candidate list, otherwise the tile picked by
the subtraction loop, falling back to the first element. -/
def get_random_tile (rules : WFCRules) (valid_tiles : List TileType) (r : ℚ) :
    TileType :=
  match valid_tiles with
  | [] => TileType.Ground
  | t0 :: rest =>
    match drawLoop rules r (t0 :: rest) with
    | some t => t
    | none => t0

/-- The total weight summed by get_random_tile. -/
def totalWeight (rules : WFCRules) (valid_tiles : List TileType) : ℚ :=
  (valid_tiles.map (weightOf rules)).sum

/-- Sum of the weights of the first n candidates (the mass consumed before
the loop reaches index n). -/
def prefixWeight (rules : WFCRules) (valid_tiles : List TileType) (n : Nat) : ℚ :=
  ((valid_tiles.take n).map (weightOf rules)).sum

/-- The candidate gathering of collapse_lowest_entropy_cell: all uncollapsed
live cells. -/
def uncollapsedOf (cells : CellStore) : CellStore :=
  cells.filter (fun p => !p.2.is_collapsed)

/-- The minimum entropy computed by collapse_lowest_entropy_cell, with the
i32::MAX default of the unwrap_or. -/
def minEntropyOf (cells : CellStore) : Int :=
  (listMinInt ((uncollapsedOf cells).map (fun p => p.2.entropy))).getD 2147483647

/-- The retained candidate pool of collapse_lowest_entropy_cell: the
uncollapsed cells at minimum entropy. -/
def minPoolOf (cells : CellStore) : CellStore :=
  (uncollapsedOf cells).filter (fun p => decide (p.2.entropy = minEntropyOf cells))

/-- wfccore.rs collapse_lowest_entropy_cell with the two random draws passed
explicitly: choice indexes the minimum-entropy pool (IteratorRandom::choose),
r is the weighted-draw sample. Returns the new queue and cell store. -/
def collapse_lowest_entropy_cell (rules : WFCRules) (choice : Nat) (r : ℚ)
    (queue : List Nat) (cells : CellStore) : List Nat × CellStore :=
  if ¬ queue.isEmpty then (queue, cells)
  else if (uncollapsedOf cells).isEmpty then (queue, cells)
  else
    match minPoolOf cells with
    | [] => (queue, cells)
    | q :: qs =>
      let chosen := (q :: qs).getD (choice % (q :: qs).length) q
      if chosen.2.valid_tiles.isEmpty then (queue, cells)
      else
        let tile := get_random_tile rules chosen.2.valid_tiles r
        (queue ++ [chosen.1],
         setCell cells chosen.1
           { chosen.2 with tile_type := some tile, is_collapsed := true, entropy := 0 })

/-- GenerationSettings from cells.rs (world streaming configuration). -/
structure GenerationSettings where
  cell_edge_length : Int
  total_cells_on_edge : Int
  spawn_distance : ℚ

/-- The i32 cast of an f32 world coordinate (truncation toward zero),
modelled on rationals. -/
def truncToInt (q : ℚ) : Int :=
  if 0 ≤ q then Int.floor q else -(Int.floor (-q))

/-- The despawn radius computed by destroy_cells:
total_cells_on_edge * cell_edge_length * spawn_distance. -/
def despawn_distance (settings : GenerationSettings) : ℚ :=
  (settings.total_cells_on_edge : ℚ) * (settings.cell_edge_length : ℚ) * settings.spawn_distance

/-- Squared planar distance between two world points (cells live at y = 0,
so Vec3::distance reduces to the planar distance). -/
def distSq (a b : ℚ × ℚ) : ℚ :=
  (a.1 - b.1) ^ 2 + (a.2 - b.2) ^ 2

/-- distance > bound, expressed on squared distances to stay inside ℚ. -/
def isFarther (dist_sq bound : ℚ) : Bool :=
  if bound < 0 then true else decide (bound ^ 2 < dist_sq)

/-- destroy_cells from cells.rs (lines 268-304), restricted to its state
effect past the throttle check: every live cell whose world-space distance
from the player exceeds the despawn radius has the spatial-index entry keyed
by its TRUNCATED WORLD coordinates removed, and is despawned. Cells are
given as (entity, world position) pairs; returns the updated index and the
despawned entities. -/
def destroy_cells (settings : GenerationSettings) (player : ℚ × ℚ)
    (cells : List (Nat × ℚ × ℚ)) (grid : SpatialGrid) : SpatialGrid × List Nat :=
  cells.foldl
    (fun acc pc =>
      if isFarther (distSq player pc.2) (despawn_distance settings) then
        (acc.1.filter (fun kv => !(decide (kv.1 = (truncToInt pc.2.1, truncToInt pc.2.2)))),
         acc.2 ++ [pc.1])
      else acc)
    (grid, [])

/-- HashMap::insert on the spatial index: replace the entry of an existing
key, else append a new entry. -/
def gridInsert (grid : SpatialGrid) (pos : Int × Int) (e : Nat) : SpatialGrid :=
  if (gridGet grid pos).isSome then
    grid.map (fun kv => if kv.1 = pos then (pos, e) else kv)
  else
    grid ++ [(pos, e)]

/-- update_spatial_index from wfccore.rs / odycore/cell.rs: insert every cell
whose Cell component was added since its last run, then drop every entry
whose value is an entity whose Cell component was removed since its last
run. -/
def update_spatial_index (grid : SpatialGrid) (added : List (Nat × Cell))
    (removed : List Nat) : SpatialGrid :=
  let g1 := added.foldl (fun g ec => gridInsert g ec.2.position ec.1) grid
  removed.foldl (fun g e => g.filter (fun kv => !(decide (kv.2 = e)))) g1

/-- The authored adjacency table of OpenSpaceRules::default
(odyrules/open_space_rules.rs), restricted to the four cardinal directions
that DIRECTION_VECTORS iterates. -/
def openSpaceAllowed : TileType → Direction → Option (List TileType)
  | TileType.Ground, _ =>
    some [TileType.Ground, TileType.Chest, TileType.Tree,
      TileType.FountainCorner1, TileType.FountainCorner2, TileType.FountainCorner3,
      TileType.FountainCorner4, TileType.FountainEdge1, TileType.FountainEdge2,
      TileType.FountainEdge3, TileType.FountainEdge4]
  | TileType.Tree, _ => some [TileType.Ground, TileType.Tree]
  | TileType.Chest, _ => some [TileType.Ground]
  | TileType.FountainCenter, _ =>
    some [TileType.FountainCenter, TileType.FountainCorner1, TileType.FountainCorner2,
      TileType.FountainCorner3, TileType.FountainCorner4, TileType.FountainEdge1,
      TileType.FountainEdge2, TileType.FountainEdge3, TileType.FountainEdge4]
  | TileType.FountainCorner1, Direction.Front => some [TileType.Ground]
  | TileType.FountainCorner1, Direction.Back => some [TileType.FountainEdge3]
  | TileType.FountainCorner1, Direction.Right => some [TileType.FountainEdge1]
  | TileType.FountainCorner1, Direction.Left => some [TileType.Ground]
  | TileType.FountainCorner2, Direction.Front => some [TileType.Ground]
  | TileType.FountainCorner2, Direction.Back => some [TileType.FountainEdge2]
  | TileType.FountainCorner2, Direction.Right => some [TileType.Ground]
  | TileType.FountainCorner2, Direction.Left => some [TileType.FountainEdge1]
  | TileType.FountainCorner3, Direction.Front => some [TileType.FountainEdge3]
  | TileType.FountainCorner3, Direction.Back => some [TileType.Ground]
  | TileType.FountainCorner3, Direction.Right => some [TileType.FountainEdge4]
  | TileType.FountainCorner3, Direction.Left => some [TileType.Ground]
  | TileType.FountainCorner4, Direction.Front => some [TileType.FountainEdge2]
  | TileType.FountainCorner4, Direction.Back => some [TileType.Ground]
  | TileType.FountainCorner4, Direction.Right => some [TileType.Ground]
  | TileType.FountainCorner4, Direction.Left => some [TileType.FountainEdge4]
  | TileType.FountainEdge1, Direction.Front => some [TileType.Ground]
  | TileType.FountainEdge1, Direction.Back => some [TileType.FountainCenter]
  | TileType.FountainEdge1, Direction.Right =>
    some [TileType.FountainEdge1, TileType.FountainCorner2]
  | TileType.FountainEdge1, Direction.Left =>
    some [TileType.FountainEdge1, TileType.FountainCorner1]
  | TileType.FountainEdge2, Direction.Front =>
    some [TileType.FountainEdge2, TileType.FountainCorner2]
  | TileType.FountainEdge2, Direction.Back =>
    some [TileType.FountainEdge2, TileType.FountainCorner2]
  | TileType.FountainEdge2, Direction.Right => some [TileType.Ground]
  | TileType.FountainEdge2, Direction.Left => some [TileType.FountainCenter]
  | TileType.FountainEdge3, Direction.Front =>
    some [TileType.FountainCorner1, TileType.FountainEdge3]
  | TileType.FountainEdge3, Direction.Back =>
    some [TileType.FountainCorner3, TileType.FountainEdge3]
  | TileType.FountainEdge3, Direction.Right => some [TileType.FountainCenter]
  | TileType.FountainEdge3, Direction.Left => some [TileType.Ground]
  | TileType.FountainEdge4, Direction.Front => some [TileType.FountainCenter]
  | TileType.FountainEdge4, Direction.Back => some [TileType.Ground]
  | TileType.FountainEdge4, Direction.Right =>
    some [TileType.FountainEdge4, TileType.FountainCorner4]
  | TileType.FountainEdge4, Direction.Left =>
    some [TileType.FountainEdge4, TileType.FountainCorner3]

/-- The authored weight table of OpenSpaceRules::default, with the f32
literals read as exact rationals. -/
def openSpaceWeights : TileType → Option ℚ
  | TileType.Ground => some (8 / 10)
  | TileType.Tree => some (2 / 10)
  | TileType.Chest => some (1 / 100)
  | _ => some (3 / 10)

/-- OpenSpaceRules::default as a WFCRules value. -/
def openSpaceRules : WFCRules :=
  { allowed_neighbors := openSpaceAllowed
    all_tiles := [TileType.Ground, TileType.Tree, TileType.Chest,
      TileType.FountainCenter, TileType.FountainCorner1, TileType.FountainCorner2,
      TileType.FountainCorner3, TileType.FountainCorner4, TileType.FountainEdge1,
      TileType.FountainEdge2, TileType.FountainEdge3, TileType.FountainEdge4]
    weights := openSpaceWeights }

/-- A candidate tile x is compatible with the rule entry of tile t in
direction d: member of the allowed list when the entry exists, vacuously
compatible when it does not (a missing entry imposes no constraint). -/
def allowedOkB (rules : WFCRules) (t : TileType) (d : Direction) (x : TileType) : Bool :=
  match rules.allowed_neighbors t d with
  | some allowed => decide (x ∈ allowed)
  | none => true

/-! ### Basic lemmas about the filtering step -/

lemma filter_valid_tiles_sublist_aux (vt : List TileType) (nt : TileType)
    (d : Direction) (rules : WFCRules) :
    (filter_valid_tiles vt nt d rules).Sublist vt := by
  unfold filter_valid_tiles
  cases rules.allowed_neighbors nt (get_opposite_direction d) with
  | none => exact List.Sublist.refl vt
  | some allowed => exact List.filter_sublist vt

lemma mem_filter_valid_tiles_allowedOkB {x : TileType} {vt : List TileType}
    {nt : TileType} {d : Direction} {rules : WFCRules}
    (hx : x ∈ filter_valid_tiles vt nt d rules) :
    allowedOkB rules nt (get_opposite_direction d) x = true := by
  unfold filter_valid_tiles at hx
  unfold allowedOkB
  cases h : rules.allowed_neighbors nt (get_opposite_direction d) with
  | none => rfl
  | some allowed =>
    rw [h] at hx
    simp only [List.mem_filter] at hx
    exact hx.2

lemma filter_valid_tiles_nil (nt : TileType) (d : Direction) (rules : WFCRules) :
    filter_valid_tiles [] nt d rules = [] := by
  unfold filter_valid_tiles
  cases rules.allowed_neighbors nt (get_opposite_direction d) with
  | none => rfl
  | some allowed => rfl

lemma filter_valid_tiles_eq_of_length {vt : List TileType} {nt : TileType}
    {d : Direction} {rules : WFCRules}
    (h : (filter_valid_tiles vt nt d rules).length = vt.length) :
    filter_valid_tiles vt nt d rules = vt :=
  (filter_valid_tiles_sublist_aux vt nt d rules).eq_of_length h

/-! ### Lemmas about the weighted draw -/

lemma drawLoop_mem (rules : WFCRules) :
    ∀ (r : ℚ) (l : List TileType) (t : TileType),
      drawLoop rules r l = some t → t ∈ l := by
  intro r l
  induction l generalizing r with
  | nil => intro t h; simp [drawLoop] at h
  | cons a rest ih =>
    intro t h
    unfold drawLoop at h
    split at h
    · cases h
      exact List.mem_cons_self a rest
    · exact List.mem_cons_of_mem a (ih _ _ h)

lemma get_random_tile_mem (rules : WFCRules) (vt : List TileType) (r : ℚ)
    (h : vt ≠ []) : get_random_tile rules vt r ∈ vt := by
  match vt with
  | [] => exact absurd rfl h
  | t0 :: rest =>
    unfold get_random_tile
    cases hd : drawLoop rules r (t0 :: rest) with
    | none => simp [hd]
    | some t =>
      simp only [hd]
      exact drawLoop_mem rules r (t0 :: rest) t hd

lemma prefixWeight_zero (rules : WFCRules) (l : List TileType) :
    prefixWeight rules l 0 = 0 := by
  simp [prefixWeight]

lemma prefixWeight_cons_succ (rules : WFCRules) (t : TileType)
    (l : List TileType) (n : Nat) :
    prefixWeight rules (t :: l) (n + 1) = weightOf rules t + prefixWeight rules l n := by
  simp [prefixWeight, List.take_succ_cons]

lemma prefixWeight_nonneg (rules : WFCRules) (l : List TileType) (n : Nat)
    (hw : ∀ t ∈ l, 0 < weightOf rules t) : 0 ≤ prefixWeight rules l n := by
  apply List.sum_nonneg
  intro x hx
  obtain ⟨t, ht, rfl⟩ := List.mem_map.mp hx
  exact le_of_lt (hw t (List.take_subset n l ht))

lemma drawLoop_interval (rules : WFCRules) :
    ∀ (l : List TileType) (i : Nat) (hi : i < l.length) (r : ℚ),
      (∀ t ∈ l, 0 < weightOf rules t) →
      prefixWeight rules l i < r → r ≤ prefixWeight rules l (i + 1) →
      drawLoop rules r l = some (l.get ⟨i, hi⟩) := by
  intro l
  induction l with
  | nil => intro i hi; exact absurd hi (Nat.not_lt_zero i)
  | cons a rest ih =>
    intro i hi r hw hlo hhi
    cases i with
    | zero =>
      rw [prefixWeight_cons_succ, prefixWeight_zero, add_zero] at hhi
      unfold drawLoop
      rw [if_pos hhi]
      rfl
    | succ j =>
      rw [prefixWeight_cons_succ] at hlo hhi
      have hrest : ∀ t ∈ rest, 0 < weightOf rules t :=
        fun t ht => hw t (List.mem_cons_of_mem a ht)
      have hwa : 0 ≤ prefixWeight rules rest j := prefixWeight_nonneg rules rest j hrest
      have hgt : weightOf rules a < r := by
        have := lt_of_le_of_lt (le_add_of_nonneg_right hwa) hlo
        exact this
      unfold drawLoop
      rw [if_neg (not_le_of_lt hgt)]
      have hj : j < rest.length := Nat.lt_of_succ_lt_succ hi
      have := ih j hj (r - weightOf rules a) hrest
        (by linarith) (by linarith)
      rw [this]
      rfl

/-! ### C8: filtering never adds tiles and preserves order -/

/-- C8: for every rule set, neighbor tile, direction, and candidate list,
filter_valid_tiles produces a sublist of the input list (no tile is added
and the relative order of survivors is preserved), so a single filtering
step never increases the candidate count. -/
theorem filter_valid_tiles_sublist (rules : WFCRules) (nt : TileType)
    (d : Direction) (vt : List TileType) :
    (filter_valid_tiles vt nt d rules).Sublist vt ∧
      (filter_valid_tiles vt nt d rules).length ≤ vt.length :=
  ⟨filter_valid_tiles_sublist_aux vt nt d rules,
    (filter_valid_tiles_sublist_aux vt nt d rules).length_le⟩

/-! ### C10: totality and closedness of get_random_tile -/

/-- C10: get_random_tile is total and closed over its input: an empty
candidate list yields the Ground tile, and for a non-empty candidate list
the result is always a member of that list, for every sampled random
value. -/
theorem get_random_tile_total (rules : WFCRules) (vt : List TileType) (r : ℚ) :
    (vt = [] → get_random_tile rules vt r = TileType.Ground) ∧
    (vt ≠ [] → get_random_tile rules vt r ∈ vt) := by
  constructor
  · intro h; subst h; rfl
  · intro h; exact get_random_tile_mem rules vt r h

/-- Witness for C10 at a concrete input: the draw over the singleton list
containing Tree returns a member of that list. -/
theorem get_random_tile_total_witness :
    get_random_tile openSpaceRules [TileType.Tree] 0 ∈ [TileType.Tree] :=
  (get_random_tile_total openSpaceRules [TileType.Tree] 0).2 (by decide)

/-! ### C6: the collapse phase is gated on an empty propagation queue -/

/-- C6: whenever the propagation queue is non-empty, running the collapse
phase is a no-op: the queue and every cell are returned unchanged (and the
spatial index is not even an input of the phase). -/
theorem collapse_gated_on_nonempty_queue (rules : WFCRules) (choice : Nat)
    (r : ℚ) (queue : List Nat) (cells : CellStore) (h : queue ≠ []) :
    collapse_lowest_entropy_cell rules choice r queue cells = (queue, cells) := by
  cases queue with
  | nil => exact absurd rfl h
  | cons a l => simp [collapse_lowest_entropy_cell]

/-- Witness for C6 at a concrete input: with one queued entity the collapse
phase leaves the state untouched. -/
theorem collapse_gated_witness :
    collapse_lowest_entropy_cell openSpaceRules 0 0 [7] [] = ([7], []) :=
  collapse_gated_on_nonempty_queue openSpaceRules 0 0 [7] [] (by decide)

/-! ### C4: the direction convention differs between the two branches -/

lemma get_opposite_direction_involutive (d : Direction) :
    get_opposite_direction (get_opposite_direction d) = d := by
  cases d <;> rfl

/-- C4 counterexample: take the collapsed tile T = FountainCorner1 at P and
the cell at P + Front holding candidates [Ground, FountainEdge3]. The
collapsed branch (CASE 1) filters that cell with
filter_valid_tiles V T Front (looking up the Back entry) and keeps
FountainEdge3, while the uncollapsed branch (CASE 2), processing the same
cell, reaches the neighbor through direction Back and filters with
filter_valid_tiles V T Back (looking up the Front entry), keeping Ground:
the two branches narrow the same cell to different results under the
authored rule table. -/
theorem direction_convention_mismatch_counterexample :
    filter_valid_tiles [TileType.Ground, TileType.FountainEdge3]
        TileType.FountainCorner1 Direction.Front openSpaceRules =
      [TileType.FountainEdge3] ∧
    filter_valid_tiles [TileType.Ground, TileType.FountainEdge3]
        TileType.FountainCorner1
        (get_opposite_direction Direction.Front) openSpaceRules =
      [TileType.Ground] ∧
    filter_valid_tiles [TileType.Ground, TileType.FountainEdge3]
        TileType.FountainCorner1 Direction.Front openSpaceRules ≠
      filter_valid_tiles [TileType.Ground, TileType.FountainEdge3]
        TileType.FountainCorner1
        (get_opposite_direction Direction.Front) openSpaceRules := by
  refine ⟨by decide, by decide, by decide⟩

/-- C4 amended: the two propagation branches filter a given cell through
opposite rule entries (allowed_neighbors[T][opposite D] in the collapsed
branch versus allowed_neighbors[T][D] in the uncollapsed branch), so they
narrow a cell to the same result whenever the rule table is symmetric under
direction reversal; the authored table is not, as the counterexample shows. -/
theorem filter_branches_agree_of_symmetric (rules : WFCRules)
    (hsym : ∀ t d, rules.allowed_neighbors t d =
      rules.allowed_neighbors t (get_opposite_direction d))
    (vt : List TileType) (nt : TileType) (d : Direction) :
    filter_valid_tiles vt nt d rules =
      filter_valid_tiles vt nt (get_opposite_direction d) rules := by
  unfold filter_valid_tiles
  rw [get_opposite_direction_involutive, ← hsym nt d]

/-- A direction-uniform (hence reversal-symmetric) rule table used to
witness the amended C4. -/
def uniformRules : WFCRules :=
  { allowed_neighbors := fun t _ => openSpaceAllowed t Direction.Front
    all_tiles := openSpaceRules.all_tiles
    weights := openSpaceWeights }

/-- Witness for the amended C4 at a concrete symmetric table and input. -/
theorem filter_branches_agree_witness :
    filter_valid_tiles [TileType.Ground, TileType.Tree] TileType.Tree
        Direction.Front uniformRules =
      filter_valid_tiles [TileType.Ground, TileType.Tree] TileType.Tree
        (get_opposite_direction Direction.Front) uniformRules :=
  filter_branches_agree_of_symmetric uniformRules (fun _ _ => rfl)
    [TileType.Ground, TileType.Tree] TileType.Tree Direction.Front

/-! ### C3: the entropy field desynchronizes from the candidate count -/

/-- State for the C3 failing input: entity 0 is collapsed to Ground at
(0, 0) and queued; entity 1 is a fresh cell at (0, 1) seeded with the full
candidate list (12 tiles, entropy 12). -/
def entropyBugCells : CellStore :=
  [(0, { is_collapsed := true, tile_type := some TileType.Ground, entropy := 0,
         valid_tiles := [TileType.Ground], position := (0, 0) }),
   (1, Cell.new openSpaceRules.all_tiles (0, 1))]

/-- Spatial index for the C3 failing input. -/
def entropyBugGrid : SpatialGrid := [((0, 0), 0), ((0, 1), 1)]

/-- C3 fails on the code: draining the queue [0] narrows the candidate list
of the uncollapsed live cell 1 from 12 tiles to 11 (CASE 1 filters it
against the collapsed Ground neighbor) but leaves its entropy field at 12,
so after the propagation phase entropy differs from the number of elements
of valid_tiles. The cells.rs helper update_entropy documents the intended
invariant, and CASE 2 does maintain it, so this is a slip in CASE 1, which
re-enqueues the narrowed neighbor without updating entropy. -/
theorem entropy_desync_after_propagation :
    (propagateGo openSpaceRules entropyBugGrid 10 [0] ∅ entropyBugCells).map
      (fun s => (getCell s 1).map
        (fun c => (c.is_collapsed, c.valid_tiles.length, c.entropy))) =
    some (some (false, 11, 12)) := by decide

/-! ### C2: what contradiction resolution actually does -/

/-- State for the C2 counterexample: entity 0 is uncollapsed at (0, 0) with
a manually emptied candidate list and is queued; entity 1 is a collapsed
Ground neighbor at (0, -1). -/
def emptiedCellStore : CellStore :=
  [(0, { is_collapsed := false, tile_type := none, entropy := 0,
         valid_tiles := [], position := (0, 0) }),
   (1, { is_collapsed := true, tile_type := some TileType.Ground, entropy := 0,
         valid_tiles := [TileType.Ground], position := (0, -1) })]

/-- Spatial index for the C2 counterexample. -/
def emptiedCellGrid : SpatialGrid := [((0, 0), 0), ((0, -1), 1)]

/-- C2 counterexample: a cell whose valid_tiles was emptied before
propagation is NOT collapsed to the fallback tile by a propagation pass:
filtering its empty list never changes the count, so CASE 2 commits
nothing, and after the drain the cell is still uncollapsed with no tile and
an empty candidate list (the claimed outcome was is_collapsed = true,
tile_type = fallback, entropy = 0). -/
theorem emptied_cell_not_collapsed_counterexample :
    (propagateGo openSpaceRules emptiedCellGrid 10 [0] ∅ emptiedCellStore).map
      (fun s => getCell s 0) =
    some (some { is_collapsed := false, tile_type := none, entropy := 0,
                 valid_tiles := [], position := (0, 0) }) := by decide

lemma case2Dir_nil (rules : WFCRules) (grid : SpatialGrid) (cells : CellStore)
    (pos : Int × Int) (dv : Direction × Int × Int) :
    case2Dir rules grid cells pos ([], false) dv = ([], false) := by
  cases hg : gridGet grid (pos.1 + dv.2.1, pos.2 + dv.2.2) with
  | none => simp [case2Dir, hg]
  | some ne =>
    cases hc : getCell cells ne with
    | none => simp [case2Dir, hg, hc]
    | some nc =>
      cases hcol : nc.is_collapsed with
      | false => simp [case2Dir, hg, hc, hcol]
      | true =>
        cases ht : nc.tile_type with
        | none => simp [case2Dir, hg, hc, hcol, ht]
        | some nt => simp [case2Dir, hg, hc, hcol, ht, filter_valid_tiles_nil]

lemma case2Fold_go_nil (rules : WFCRules) (grid : SpatialGrid)
    (cells : CellStore) (pos : Int × Int) :
    ∀ ds : List (Direction × Int × Int),
      List.foldl (case2Dir rules grid cells pos) ([], false) ds = ([], false) := by
  intro ds
  induction ds with
  | nil => rfl
  | cons dv rest ih => rw [List.foldl_cons, case2Dir_nil, ih]

/-- C2 amended, part used for CASE 1: when filtering an uncollapsed
neighbor against a collapsed tile empties its candidate list, the engine
rewrites the list to [Ground] with entropy 1, leaves the cell uncollapsed
with no resolved tile, and re-enqueues it; part used for CASE 2: a cell
whose candidate list was ALREADY empty before propagation is left entirely
unchanged by its own processing (no fallback, no collapse, no push). -/
theorem contradiction_fallback_behavior (rules : WFCRules) (grid : SpatialGrid) :
    (∀ (tile : TileType) (pos : Int × Int) (acc : CellStore × List Nat)
       (dv : Direction × Int × Int) (ne : Nat) (nc : Cell),
        gridGet grid (pos.1 + dv.2.1, pos.2 + dv.2.2) = some ne →
        getCell acc.1 ne = some nc →
        nc.is_collapsed = false →
        filter_valid_tiles nc.valid_tiles tile dv.1 rules = [] →
        case1Dir rules grid tile pos acc dv =
          (setCell acc.1 ne { nc with valid_tiles := [TileType.Ground], entropy := 1 },
           (if (0 : Nat) ≠ nc.valid_tiles.length then acc.2 ++ [ne] else acc.2) ++ [ne])) ∧
    (∀ (e : Nat) (cells : CellStore) (c : Cell),
        getCell cells e = some c →
        c.is_collapsed = false →
        c.valid_tiles = [] →
        processCell rules grid e cells = (cells, [])) := by
  constructor
  · intro tile pos acc dv ne nc hg hc hcol hf
    simp [case1Dir, hg, hc, hcol, hf, Cell.is_contradiction]
  · intro e cells c hc hcol hvt
    simp [processCell, hc, hcol, hvt, case2Fold, case2Fold_go_nil]

/-- Witness for the amended C2 at concrete inputs: a Tree-only cell next to
a collapsed Chest is emptied and reset to [Ground] with entropy 1 and
re-enqueued, and a pre-emptied cell is left unchanged by its own pass. -/
theorem contradiction_fallback_witness :
    case1Dir openSpaceRules [((0, 1), 1)] TileType.Chest (0, 0)
        ([(1, { is_collapsed := false, tile_type := none, entropy := 1,
                valid_tiles := [TileType.Tree], position := (0, 1) })], [])
        (Direction.Front, 0, 1) =
      ([(1, { is_collapsed := false, tile_type := none, entropy := 1,
              valid_tiles := [TileType.Ground], position := (0, 1) })], [1, 1]) ∧
    processCell openSpaceRules emptiedCellGrid 0 emptiedCellStore =
      (emptiedCellStore, []) := by
  constructor
  · have h := (contradiction_fallback_behavior openSpaceRules [((0, 1), 1)]).1
      TileType.Chest (0, 0)
      ([(1, { is_collapsed := false, tile_type := none, entropy := 1,
              valid_tiles := [TileType.Tree], position := (0, 1) })], [])
      (Direction.Front, 0, 1) 1
      { is_collapsed := false, tile_type := none, entropy := 1,
        valid_tiles := [TileType.Tree], position := (0, 1) }
      (by decide) (by decide) (by decide) (by decide)
    rw [h]
    decide
  · exact (contradiction_fallback_behavior openSpaceRules emptiedCellGrid).2 0
      emptiedCellStore
      { is_collapsed := false, tile_type := none, entropy := 0,
        valid_tiles := [], position := (0, 0) }
      (by decide) (by decide) (by decide)

/-! ### Lemmas about the iterator minimum -/

lemma listMinInt_mem : ∀ {l : List Int} {m : Int}, listMinInt l = some m → m ∈ l := by
  intro l
  induction l with
  | nil => intro m h; simp [listMinInt] at h
  | cons x xs ih =>
    intro m h
    unfold listMinInt at h
    cases hxs : listMinInt xs with
    | none =>
      rw [hxs] at h
      cases h
      exact List.mem_cons_self x xs
    | some m2 =>
      rw [hxs] at h
      cases h
      rcases min_cases x m2 with ⟨he, _⟩ | ⟨he, _⟩
      · rw [he]; exact List.mem_cons_self x xs
      · rw [he]; exact List.mem_cons_of_mem x (ih hxs)

lemma listMinInt_le : ∀ {l : List Int} {m : Int}, listMinInt l = some m →
    ∀ x ∈ l, m ≤ x := by
  intro l
  induction l with
  | nil => intro m h; simp [listMinInt] at h
  | cons a xs ih =>
    intro m h x hx
    unfold listMinInt at h
    cases hxs : listMinInt xs with
    | none =>
      rw [hxs] at h
      cases h
      cases List.mem_cons.mp hx with
      | inl he => exact le_of_eq he.symm
      | inr ht =>
        exfalso
        cases xs with
        | nil => simp at ht
        | cons b bs =>
          unfold listMinInt at hxs
          cases hbs : listMinInt bs with
          | none => rw [hbs] at hxs; exact Option.noConfusion hxs
          | some mb => rw [hbs] at hxs; exact Option.noConfusion hxs
    | some m2 =>
      rw [hxs] at h
      cases h
      cases List.mem_cons.mp hx with
      | inl he => rw [he]; exact min_le_left a m2
      | inr ht => exact le_trans (min_le_right a m2) (ih hxs x ht)

lemma listMinInt_isSome {l : List Int} (h : l ≠ []) : (listMinInt l).isSome = true := by
  cases l with
  | nil => exact absurd rfl h
  | cons x xs =>
    unfold listMinInt
    cases listMinInt xs <;> rfl

/-! ### C5: functional specification of the collapse phase -/

/-- C5: with an empty propagation queue, (1) when no uncollapsed live cell
exists the collapse phase is a no-op; (2) when one exists, the phase acts
through some uncollapsed live cell of minimal entropy: if its candidate
list is empty nothing changes, and otherwise exactly that cell gets
tile_type set to the weighted draw from its own candidate list,
is_collapsed set to true, entropy set to 0, and is the one entity enqueued;
(3) the weighted draw over candidates with positive weights (defaulting to
1 for tiles missing from the table) realizes the index i precisely when the
sample falls in the half-open interval of length weight(i) between the
prefix sums, which makes the selection probability of each candidate
proportional to its weight under a uniform sample. -/
theorem collapse_lowest_entropy_spec (rules : WFCRules) (choice : Nat) (r : ℚ)
    (cells : CellStore) :
    (uncollapsedOf cells = [] →
      collapse_lowest_entropy_cell rules choice r [] cells = ([], cells)) ∧
    (uncollapsedOf cells ≠ [] →
      ∃ e c, (e, c) ∈ minPoolOf cells ∧ (e, c) ∈ cells ∧ c.is_collapsed = false ∧
        c.entropy = minEntropyOf cells ∧
        (∀ p ∈ uncollapsedOf cells, minEntropyOf cells ≤ p.2.entropy) ∧
        (c.valid_tiles = [] →
          collapse_lowest_entropy_cell rules choice r [] cells = ([], cells)) ∧
        (c.valid_tiles ≠ [] →
          get_random_tile rules c.valid_tiles r ∈ c.valid_tiles ∧
          collapse_lowest_entropy_cell rules choice r [] cells =
            ([e], setCell cells e
              { c with tile_type := some (get_random_tile rules c.valid_tiles r),
                       is_collapsed := true, entropy := 0 }))) ∧
    (∀ (vt : List TileType) (i : Nat) (hi : i < vt.length) (s : ℚ),
        (∀ t ∈ vt, 0 < weightOf rules t) →
        prefixWeight rules vt i < s → s ≤ prefixWeight rules vt (i + 1) →
        get_random_tile rules vt s = vt.get ⟨i, hi⟩) := by
  refine ⟨?_, ?_, ?_⟩
  · intro h
    simp [collapse_lowest_entropy_cell, h]
  · intro h
    have hne : (uncollapsedOf cells).isEmpty = false := by
      cases hu : uncollapsedOf cells with
      | nil => exact absurd hu h
      | cons a l => rfl
    have hmap : (uncollapsedOf cells).map (fun p => p.2.entropy) ≠ [] := by
      intro hmapeq
      exact h (List.map_eq_nil_iff.mp hmapeq)
    obtain ⟨m, hm⟩ := Option.isSome_iff_exists.mp (listMinInt_isSome hmap)
    have hminval : minEntropyOf cells = m := by
      unfold minEntropyOf
      rw [hm]
      rfl
    obtain ⟨p, hp, hpm⟩ := List.mem_map.mp (listMinInt_mem hm)
    have hppool : p ∈ minPoolOf cells := by
      unfold minPoolOf
      refine List.mem_filter.mpr ⟨hp, ?_⟩
      rw [hminval, hpm]
      simp
    cases hpool : minPoolOf cells with
    | nil =>
      rw [hpool] at hppool
      simp at hppool
    | cons q qs =>
      have hlt : choice % (q :: qs).length < (q :: qs).length :=
        Nat.mod_lt _ (Nat.succ_pos _)
      have hchpool : (q :: qs).getD (choice % (q :: qs).length) q ∈ q :: qs := by
        rw [List.getD_eq_getElem _ _ hlt]
        exact List.getElem_mem _
      have hchmem : (q :: qs).getD (choice % (q :: qs).length) q ∈ minPoolOf cells := by
        rw [hpool]
        exact hchpool
      have hchunc : (q :: qs).getD (choice % (q :: qs).length) q ∈ uncollapsedOf cells :=
        (List.mem_filter.mp hchmem).1
      have hchcells : (q :: qs).getD (choice % (q :: qs).length) q ∈ cells :=
        List.mem_of_mem_filter hchunc
      have hchuncol : ((q :: qs).getD (choice % (q :: qs).length) q).2.is_collapsed = false := by
        have := (List.mem_filter.mp hchunc).2
        simpa using this
      have hchent : ((q :: qs).getD (choice % (q :: qs).length) q).2.entropy =
          minEntropyOf cells := by
        have := (List.mem_filter.mp hchmem).2
        simpa using this
      have hcollapse : collapse_lowest_entropy_cell rules choice r [] cells =
          (if ((q :: qs).getD (choice % (q :: qs).length) q).2.valid_tiles.isEmpty then
            ([], cells)
          else
            ([((q :: qs).getD (choice % (q :: qs).length) q).1],
             setCell cells ((q :: qs).getD (choice % (q :: qs).length) q).1
               { ((q :: qs).getD (choice % (q :: qs).length) q).2 with
                 tile_type := some (get_random_tile rules
                   ((q :: qs).getD (choice % (q :: qs).length) q).2.valid_tiles r),
                 is_collapsed := true, entropy := 0 })) := by
        unfold collapse_lowest_entropy_cell
        rw [hpool]
        simp [hne]
      refine ⟨((q :: qs).getD (choice % (q :: qs).length) q).1,
              ((q :: qs).getD (choice % (q :: qs).length) q).2,
              hchpool, hchcells, hchuncol, hchent, ?_, ?_, ?_⟩
      · intro p2 hp2
        rw [hminval]
        exact listMinInt_le hm _ (List.mem_map.mpr ⟨p2, hp2, rfl⟩)
      · intro hvt
        rw [hcollapse, if_pos (by rw [hvt]; rfl)]
      · intro hvt
        refine ⟨get_random_tile_mem rules _ r hvt, ?_⟩
        rw [hcollapse, if_neg (fun hcond => hvt (List.isEmpty_iff.mp hcond))]
  · intro vt i hi s hw hlo hhi
    have hdraw := drawLoop_interval rules vt i hi s hw hlo hhi
    cases vt with
    | nil => exact absurd hi (Nat.not_lt_zero i)
    | cons t0 rest =>
      simp only [get_random_tile]
      rw [hdraw]

/-- Witness for C5: applying the specification to a one-cell store holding
an uncollapsed cell with candidate list [Ground]. -/
theorem collapse_lowest_entropy_spec_witness :
    uncollapsedOf [(0, Cell.new [TileType.Ground] (0, 0))] ≠ [] ∧
    (∃ e c, (e, c) ∈ minPoolOf [(0, Cell.new [TileType.Ground] (0, 0))] ∧
      (e, c) ∈ [(0, Cell.new [TileType.Ground] (0, 0))] ∧ c.is_collapsed = false ∧
      c.entropy = minEntropyOf [(0, Cell.new [TileType.Ground] (0, 0))] ∧
      (∀ p ∈ uncollapsedOf [(0, Cell.new [TileType.Ground] (0, 0))],
        minEntropyOf [(0, Cell.new [TileType.Ground] (0, 0))] ≤ p.2.entropy) ∧
      (c.valid_tiles = [] →
        collapse_lowest_entropy_cell openSpaceRules 0 (1/2) []
          [(0, Cell.new [TileType.Ground] (0, 0))] =
          ([], [(0, Cell.new [TileType.Ground] (0, 0))])) ∧
      (c.valid_tiles ≠ [] →
        get_random_tile openSpaceRules c.valid_tiles (1/2) ∈ c.valid_tiles ∧
        collapse_lowest_entropy_cell openSpaceRules 0 (1/2) []
          [(0, Cell.new [TileType.Ground] (0, 0))] =
          ([e], setCell [(0, Cell.new [TileType.Ground] (0, 0))] e
            { c with tile_type := some (get_random_tile openSpaceRules c.valid_tiles (1/2)),
                     is_collapsed := true, entropy := 0 }))) :=
  ⟨by decide,
   (collapse_lowest_entropy_spec openSpaceRules 0 (1/2)
     [(0, Cell.new [TileType.Ground] (0, 0))]).2.1 (by decide)⟩

/-! ### C7: the spatial index keeps a stale entry after cell destruction -/

/-- C7 fails on the code: with the default settings (cell edge length 9,
17 cells per edge, despawn multiplier 0.7) a cell at grid coordinate
(12, 0) sits at world position (108, 0); its distance 108 from a player at
the origin exceeds the despawn radius 107.1, so destroy_cells despawns it —
but it removes the index key (108, 0) (the truncated WORLD coordinates)
while the index is keyed by GRID coordinates, so the entry (12, 0) ->
entity 3 survives, and the same-tick run of update_spatial_index (which
only sees removals on its NEXT run, past the tick boundary) does not clear
it either: a stale entry pointing at a destroyed cell persists across the
tick boundary, contradicting the claimed index/liveness agreement. -/
theorem stale_index_entry_after_destroy :
    destroy_cells
        { cell_edge_length := 9, total_cells_on_edge := 17, spawn_distance := 7 / 10 }
        (0, 0) [(3, (108, 0))] [((12, 0), 3)] =
      ([((12, 0), 3)], [3]) ∧
    update_spatial_index [((12, 0), 3)] [] [] = [((12, 0), 3)] := by
  have hfar : isFarther (distSq (0, 0) (108, 0))
      (despawn_distance
        { cell_edge_length := 9, total_cells_on_edge := 17, spawn_distance := 7 / 10 }) =
      true := by
    unfold isFarther distSq despawn_distance
    rw [if_neg (by norm_num)]
    simp only [decide_eq_true_eq]
    norm_num
  have htr : truncToInt (108 : ℚ) = 108 := by
    unfold truncToInt
    rw [if_pos (by norm_num)]
    rw [show ((108 : ℚ)) = ((108 : ℤ) : ℚ) by norm_num, Int.floor_intCast]
  have htr0 : truncToInt (0 : ℚ) = 0 := by
    unfold truncToInt
    rw [if_pos le_rfl]
    rw [show ((0 : ℚ)) = ((0 : ℤ) : ℚ) by norm_num, Int.floor_intCast]
  constructor
  · unfold destroy_cells
    simp only [List.foldl_cons, List.foldl_nil]
    rw [hfar]
    simp only [if_true, htr, htr0]
    simp
  · rfl

/-! ### C9: termination of the propagation drain loop -/

lemma gridGet_mem_vals {grid : SpatialGrid} {pos : Int × Int} {e : Nat}
    (h : gridGet grid pos = some e) : e ∈ gridVals grid := by
  induction grid with
  | nil => exact Option.noConfusion h
  | cons p rest ih =>
    unfold gridGet at h
    by_cases hp : p.1 = pos
    · rw [if_pos hp] at h
      cases h
      exact List.mem_map.mpr ⟨p, List.mem_cons_self p rest, rfl⟩
    · rw [if_neg hp] at h
      exact List.mem_cons_of_mem _ (ih h)

lemma case1Dir_pushes (rules : WFCRules) (grid : SpatialGrid) (tile : TileType)
    (pos : Int × Int) (acc : CellStore × List Nat) (dv : Direction × Int × Int) :
    ∃ extra : List Nat, (case1Dir rules grid tile pos acc dv).2 = acc.2 ++ extra ∧
      extra.length ≤ 2 ∧ ∀ e ∈ extra, e ∈ gridVals grid := by
  unfold case1Dir
  cases hg : gridGet grid (pos.1 + dv.2.1, pos.2 + dv.2.2) with
  | none => exact ⟨[], by simp [hg], by simp, by simp⟩
  | some ne =>
    have hnv : ne ∈ gridVals grid := gridGet_mem_vals hg
    cases hc : getCell acc.1 ne with
    | none => exact ⟨[], by simp [hg, hc], by simp, by simp⟩
    | some nc =>
      cases hcol : nc.is_collapsed with
      | true => exact ⟨[], by simp [hg, hc, hcol], by simp, by simp⟩
      | false =>
        simp only [hg, hc, hcol, Bool.false_eq_true, if_false]
        by_cases hlen :
            (filter_valid_tiles nc.valid_tiles tile dv.1 rules).length =
              nc.valid_tiles.length
        · rw [if_neg (not_not_intro hlen)]
          by_cases hcon : Cell.is_contradiction
              { is_collapsed := false, tile_type := nc.tile_type, entropy := nc.entropy,
                valid_tiles := filter_valid_tiles nc.valid_tiles tile dv.1 rules,
                position := nc.position } = true
          · rw [if_pos hcon]
            refine ⟨[ne], by simp, by simp, ?_⟩
            intro e he
            rcases List.mem_cons.mp he with rfl | he2
            · exact hnv
            · simp at he2
          · rw [if_neg hcon]
            exact ⟨[], by simp, by simp, by simp⟩
        · rw [if_pos hlen]
          by_cases hcon : Cell.is_contradiction
              { is_collapsed := false, tile_type := nc.tile_type, entropy := nc.entropy,
                valid_tiles := filter_valid_tiles nc.valid_tiles tile dv.1 rules,
                position := nc.position } = true
          · rw [if_pos hcon]
            refine ⟨[ne, ne], ?_, by simp, ?_⟩
            · simp
            · intro e he
              rcases List.mem_cons.mp he with rfl | he2
              · exact hnv
              · rcases List.mem_cons.mp he2 with rfl | he3
                · exact hnv
                · simp at he3
          · rw [if_neg hcon]
            refine ⟨[ne], by simp, by simp, ?_⟩
            intro e he
            rcases List.mem_cons.mp he with rfl | he2
            · exact hnv
            · simp at he2

lemma foldl_case1Dir_pushes (rules : WFCRules) (grid : SpatialGrid)
    (tile : TileType) (pos : Int × Int) :
    ∀ (ds : List (Direction × Int × Int)) (acc : CellStore × List Nat),
      ∃ extra : List Nat,
        (List.foldl (case1Dir rules grid tile pos) acc ds).2 = acc.2 ++ extra ∧
        extra.length ≤ 2 * ds.length ∧ ∀ e ∈ extra, e ∈ gridVals grid := by
  intro ds
  induction ds with
  | nil => intro acc; exact ⟨[], by simp, by simp, by simp⟩
  | cons dv rest ih =>
    intro acc
    obtain ⟨e1, he1, hl1, hm1⟩ := case1Dir_pushes rules grid tile pos acc dv
    obtain ⟨e2, he2, hl2, hm2⟩ := ih (case1Dir rules grid tile pos acc dv)
    refine ⟨e1 ++ e2, ?_, ?_, ?_⟩
    · rw [List.foldl_cons, he2, he1, List.append_assoc]
    · simp only [List.length_append, List.length_cons]
      omega
    · intro e he
      rcases List.mem_append.mp he with h1 | h2
      · exact hm1 e h1
      · exact hm2 e h2

lemma processCell_pushes (rules : WFCRules) (grid : SpatialGrid) (e : Nat)
    (cells : CellStore) :
    (processCell rules grid e cells).2.length ≤ 8 ∧
      ∀ x ∈ (processCell rules grid e cells).2, x ∈ gridVals grid := by
  cases hc : getCell cells e with
  | none =>
    have hpc : processCell rules grid e cells = (cells, []) := by
      simp [processCell, hc]
    rw [hpc]
    exact ⟨by simp, by simp⟩
  | some cell =>
    cases hcol : cell.is_collapsed with
    | true =>
      cases ht : cell.tile_type with
      | none =>
        have hpc : processCell rules grid e cells = (cells, []) := by
          simp [processCell, hc, hcol, ht]
        rw [hpc]
        exact ⟨by simp, by simp⟩
      | some tile =>
        have hpc : processCell rules grid e cells =
            case1Fold rules grid tile cell.position cells := by
          simp [processCell, hc, hcol, ht]
        rw [hpc]
        obtain ⟨extra, hx, hl, hm⟩ :=
          foldl_case1Dir_pushes rules grid tile cell.position DIRECTION_VECTORS (cells, [])
        unfold case1Fold
        rw [hx]
        simp only [List.nil_append]
        refine ⟨?_, hm⟩
        have h8 : 2 * DIRECTION_VECTORS.length = 8 := by
          simp [DIRECTION_VECTORS]
        omega
    | false =>
      have hpc : (processCell rules grid e cells).2 = [] := by
        unfold processCell
        rw [hc]
        simp only [hcol, Bool.false_eq_true, if_false]
        split
        · split
          · rfl
          · rfl
        · rfl
      rw [hpc]
      exact ⟨by simp, by simp⟩

lemma propagateGo_isSome (rules : WFCRules) (grid : SpatialGrid) (U : Finset Nat)
    (hU : ∀ e ∈ gridVals grid, e ∈ U) :
    ∀ (fuel : Nat) (queue : List Nat) (processed : Finset Nat) (cells : CellStore),
      (∀ e ∈ queue, e ∈ U) →
      queue.length + 9 * (U \ processed).card ≤ fuel →
      (propagateGo rules grid fuel queue processed cells).isSome = true := by
  intro fuel
  induction fuel with
  | zero =>
    intro queue processed cells hq hb
    cases queue with
    | nil => simp [propagateGo]
    | cons e rest => simp at hb
  | succ n ih =>
    intro queue processed cells hq hb
    cases queue with
    | nil => simp [propagateGo]
    | cons e rest =>
      by_cases hmem : e ∈ processed
      · have : propagateGo rules grid (n + 1) (e :: rest) processed cells =
            propagateGo rules grid n rest processed cells := by
          simp only [propagateGo]
          rw [if_pos hmem]
        rw [this]
        refine ih rest processed cells (fun x hx => hq x (List.mem_cons_of_mem e hx)) ?_
        simp only [List.length_cons] at hb
        omega
      · have heq : propagateGo rules grid (n + 1) (e :: rest) processed cells =
            propagateGo rules grid n (rest ++ (processCell rules grid e cells).2)
              (insert e processed) (processCell rules grid e cells).1 := by
          simp only [propagateGo]
          rw [if_neg hmem]
        rw [heq]
        obtain ⟨hplen, hpmem⟩ := processCell_pushes rules grid e cells
        have heU : e ∈ U \ processed :=
          Finset.mem_sdiff.mpr ⟨hq e (List.mem_cons_self e rest), hmem⟩
        have hc1 : 1 ≤ (U \ processed).card := Finset.card_pos.mpr ⟨e, heU⟩
        have hcard : (U \ insert e processed).card = (U \ processed).card - 1 := by
          rw [Finset.sdiff_insert, Finset.card_erase_of_mem heU]
        refine ih (rest ++ (processCell rules grid e cells).2) (insert e processed)
          (processCell rules grid e cells).1 ?_ ?_
        · intro x hx
          rcases List.mem_append.mp hx with h1 | h2
          · exact hq x (List.mem_cons_of_mem e h1)
          · exact hU x (hpmem x h2)
        · simp only [List.length_append, List.length_cons] at hb ⊢
          omega

/-- C9: the propagation drain loop always terminates: for every finite
initial queue, spatial index, and cell store, running the loop with fuel
(initial queue length) + 9 * (number of distinct entities occurring in the
queue or the index) completes the drain (the processed set stops
reprocessing, and every re-enqueued entity comes from the index and can be
processed at most once, pushing at most 8 entries while it is). -/
theorem propagate_drain_terminates (rules : WFCRules) (grid : SpatialGrid)
    (queue : List Nat) (cells : CellStore) :
    ∃ cells2 : CellStore,
      propagateGo rules grid
        (queue.length + 9 * ((queue ++ gridVals grid).toFinset.card)) queue ∅ cells =
      some cells2 := by
  have h := propagateGo_isSome rules grid ((queue ++ gridVals grid).toFinset)
    (fun e he => List.mem_toFinset.mpr (List.mem_append.mpr (Or.inr he)))
    (queue.length + 9 * ((queue ++ gridVals grid).toFinset.card)) queue ∅ cells
    (fun e he => List.mem_toFinset.mpr (List.mem_append.mpr (Or.inl he)))
    (by simp)
  exact Option.isSome_iff_exists.mp h

/-! ### C1: local arc-consistency after the drain -/

/-- A rule table that is symmetric under direction reversal, so that the two
lookup conventions of the propagation engine coincide. -/
def SymmetricRules (rules : WFCRules) : Prop :=
  ∀ t d, rules.allowed_neighbors t d =
    rules.allowed_neighbors t (get_opposite_direction d)

/-- A rule table in which every allowed-neighbor list contains the Ground
fallback tile, so forced contradiction resolutions never violate a
constraint. -/
def GroundPermissive (rules : WFCRules) : Prop :=
  ∀ t d l, rules.allowed_neighbors t d = some l → TileType.Ground ∈ l

/-- The spatial index and the cell store agree: an indexed live cell sits at
the coordinate of its key, and every live cell is indexed at its own
position. -/
def GridCoherent (grid : SpatialGrid) (cells : CellStore) : Prop :=
  (∀ pos e c, gridGet grid pos = some e → getCell cells e = some c →
    c.position = pos) ∧
  (∀ e c, getCell cells e = some c → gridGet grid c.position = some e)

/-- Local arc-consistency: the candidate list of every live uncollapsed cell is
compatible, tile by tile, with the rule entry of every collapsed neighbor,
in the direction leading from the cell to that neighbor. -/
def ArcConsistent (rules : WFCRules) (grid : SpatialGrid) (cells : CellStore) :
    Prop :=
  ∀ eC cC dv eN cN t, getCell cells eC = some cC → cC.is_collapsed = false →
    dv ∈ DIRECTION_VECTORS →
    gridGet grid (cC.position.1 + dv.2.1, cC.position.2 + dv.2.2) = some eN →
    getCell cells eN = some cN → cN.is_collapsed = true → cN.tile_type = some t →
    ∀ x ∈ cC.valid_tiles, allowedOkB rules t dv.1 x = true

/-- The drain-loop invariant: every (uncollapsed cell, collapsed neighbor)
pair is either already consistent or has one of its endpoints still pending
in the queue (queued and not yet processed). -/
def PendingInvariant (rules : WFCRules) (grid : SpatialGrid) (queue : List Nat)
    (processed : Finset Nat) (cells : CellStore) : Prop :=
  ∀ eC cC dv eN cN t, getCell cells eC = some cC → cC.is_collapsed = false →
    dv ∈ DIRECTION_VECTORS →
    gridGet grid (cC.position.1 + dv.2.1, cC.position.2 + dv.2.2) = some eN →
    getCell cells eN = some cN → cN.is_collapsed = true → cN.tile_type = some t →
    ((∀ x ∈ cC.valid_tiles, allowedOkB rules t dv.1 x = true) ∨
      (eN ∈ queue ∧ eN ∉ processed) ∨ (eC ∈ queue ∧ eC ∉ processed))

/-- Evolution relation of the cell store along the drain: no cell appears or
disappears, collapse state, resolved tile and position are unchanged, and
every candidate list either shrinks (as a sublist) or was reset to the
Ground fallback. -/
def StoreFrame (cells cells2 : CellStore) : Prop :=
  ∀ e, ((getCell cells2 e = none) ↔ (getCell cells e = none)) ∧
    ∀ c2, getCell cells2 e = some c2 → ∃ c, getCell cells e = some c ∧
      c2.is_collapsed = c.is_collapsed ∧ c2.tile_type = c.tile_type ∧
      c2.position = c.position ∧
      (c2.valid_tiles.Sublist c.valid_tiles ∨ c2.valid_tiles = [TileType.Ground])

lemma StoreFrame_refl (cells : CellStore) : StoreFrame cells cells := by
  intro e
  refine ⟨Iff.rfl, ?_⟩
  intro c2 h
  exact ⟨c2, h, rfl, rfl, rfl, Or.inl (List.Sublist.refl _)⟩

lemma StoreFrame_trans {a b c : CellStore} (h1 : StoreFrame a b)
    (h2 : StoreFrame b c) : StoreFrame a c := by
  intro e
  refine ⟨(h2 e).1.trans (h1 e).1, ?_⟩
  intro c2 hc2
  obtain ⟨cb, hcb, hb1, hb2, hb3, hb4⟩ := (h2 e).2 c2 hc2
  obtain ⟨ca, hca, ha1, ha2, ha3, ha4⟩ := (h1 e).2 cb hcb
  refine ⟨ca, hca, hb1.trans ha1, hb2.trans ha2, hb3.trans ha3, ?_⟩
  rcases hb4 with hsub | hgr
  · rcases ha4 with hsub2 | hgr2
    · exact Or.inl (hsub.trans hsub2)
    · rw [hgr2] at hsub
      rcases List.sublist_singleton.mp hsub with hnil | hgr3
      · exact Or.inl (hnil ▸ List.nil_sublist _)
      · exact Or.inr hgr3
  · exact Or.inr hgr

lemma getCell_setCell (cells : CellStore) (e : Nat) (c : Cell) (e2 : Nat) :
    getCell (setCell cells e c) e2 =
      if e2 = e then (getCell cells e).map (fun _ => c) else getCell cells e2 := by
  induction cells with
  | nil => by_cases h : e2 = e <;> simp [getCell, setCell, h]
  | cons q rest ih =>
    unfold setCell at ih ⊢
    simp only [List.map_cons]
    by_cases h1 : q.1 = e
    · by_cases h2 : e2 = e
      · subst h2
        simp [getCell, h1]
      · have h3 : q.1 ≠ e2 := fun hq => h2 ((hq.symm.trans h1).symm ▸ rfl)
        have h4 : ¬ e = e2 := fun he => h2 he.symm
        simp [getCell, h1, h2, h3, h4, ih]
    · by_cases h2 : e2 = e
      · subst h2
        simp [getCell, h1, ih]
      · by_cases h3 : q.1 = e2 <;> simp [getCell, h1, h2, h3, ih]

lemma ground_allowedOkB {rules : WFCRules} (hgr : GroundPermissive rules)
    (t : TileType) (d : Direction) :
    allowedOkB rules t d TileType.Ground = true := by
  cases h : rules.allowed_neighbors t d with
  | none => simp [allowedOkB, h]
  | some l =>
    simp only [allowedOkB, h]
    exact decide_eq_true (hgr t d l h)

lemma respects_mono {rules : WFCRules} (hgr : GroundPermissive rules)
    {t : TileType} {d : Direction} {vt vt2 : List TileType}
    (hsub : vt2.Sublist vt ∨ vt2 = [TileType.Ground])
    (h : ∀ x ∈ vt, allowedOkB rules t d x = true) :
    ∀ x ∈ vt2, allowedOkB rules t d x = true := by
  intro x hx
  rcases hsub with hsub | hgr2
  · exact h x (hsub.subset hx)
  · rw [hgr2] at hx
    rcases List.mem_singleton.mp hx with rfl
    exact ground_allowedOkB hgr t d

lemma allowedOkB_opp {rules : WFCRules} (hsym : SymmetricRules rules)
    (t : TileType) (d : Direction) (x : TileType) :
    allowedOkB rules t (get_opposite_direction d) x = allowedOkB rules t d x := by
  unfold allowedOkB
  rw [← hsym t d]

lemma StoreFrame_setCell (cells : CellStore) (e : Nat) {c c2 : Cell}
    (h : getCell cells e = some c)
    (h1 : c2.is_collapsed = c.is_collapsed) (h2 : c2.tile_type = c.tile_type)
    (h3 : c2.position = c.position)
    (hvt : c2.valid_tiles.Sublist c.valid_tiles ∨ c2.valid_tiles = [TileType.Ground]) :
    StoreFrame cells (setCell cells e c2) := by
  intro e2
  rw [getCell_setCell]
  by_cases he : e2 = e
  · subst he
    rw [if_pos rfl, h]
    constructor
    · simp
    · intro c3 hc3
      have hc23 : c2 = c3 := by simpa using hc3
      subst hc23
      exact ⟨c, by simp [h], h1, h2, h3, hvt⟩
  · rw [if_neg he]
    refine ⟨Iff.rfl, ?_⟩
    intro c3 hc3
    exact ⟨c3, hc3, rfl, rfl, rfl, Or.inl (List.Sublist.refl _)⟩

lemma GridCoherent_frame {grid : SpatialGrid} {cells cells2 : CellStore}
    (hcoh : GridCoherent grid cells) (hf : StoreFrame cells cells2) :
    GridCoherent grid cells2 := by
  constructor
  · intro pos e c hg hc
    obtain ⟨c0, hc0, _, _, hpos, _⟩ := (hf e).2 c hc
    rw [hpos]
    exact hcoh.1 pos e c0 hg hc0
  · intro e c hc
    obtain ⟨c0, hc0, _, _, hpos, _⟩ := (hf e).2 c hc
    rw [hpos]
    exact hcoh.2 e c0 hc0

/-- Each CASE-2 direction step either leaves the accumulator untouched or
filters the running list against the collapsed neighbor tile of that
direction. -/
lemma case2Dir_eq (rules : WFCRules) (grid : SpatialGrid) (cells : CellStore)
    (pos : Int × Int) (acc : List TileType × Bool) (dv : Direction × Int × Int) :
    case2Dir rules grid cells pos acc dv = acc ∨
    ∃ nt, case2Dir rules grid cells pos acc dv =
      (filter_valid_tiles acc.1 nt dv.1 rules,
       acc.2 || decide ((filter_valid_tiles acc.1 nt dv.1 rules).length ≠
         acc.1.length)) := by
  cases hg : gridGet grid (pos.1 + dv.2.1, pos.2 + dv.2.2) with
  | none => exact Or.inl (by simp [case2Dir, hg])
  | some ne =>
    cases hc : getCell cells ne with
    | none => exact Or.inl (by simp [case2Dir, hg, hc])
    | some nc =>
      cases hcol : nc.is_collapsed with
      | false => exact Or.inl (by simp [case2Dir, hg, hc, hcol])
      | true =>
        cases ht : nc.tile_type with
        | none => exact Or.inl (by simp [case2Dir, hg, hc, hcol, ht])
        | some nt => exact Or.inr ⟨nt, by simp [case2Dir, hg, hc, hcol, ht]⟩

lemma case2Dir_sublist (rules : WFCRules) (grid : SpatialGrid)
    (cells : CellStore) (pos : Int × Int) (acc : List TileType × Bool)
    (dv : Direction × Int × Int) :
    (case2Dir rules grid cells pos acc dv).1.Sublist acc.1 := by
  rcases case2Dir_eq rules grid cells pos acc dv with he | ⟨nt, he⟩
  · rw [he]
  · rw [he]
    exact filter_valid_tiles_sublist_aux _ _ _ _

lemma case2Fold_go_sublist (rules : WFCRules) (grid : SpatialGrid)
    (cells : CellStore) (pos : Int × Int) :
    ∀ (ds : List (Direction × Int × Int)) (acc : List TileType × Bool),
      (List.foldl (case2Dir rules grid cells pos) acc ds).1.Sublist acc.1 := by
  intro ds
  induction ds with
  | nil => intro acc; exact List.Sublist.refl _
  | cons dv rest ih =>
    intro acc
    exact (ih (case2Dir rules grid cells pos acc dv)).trans
      (case2Dir_sublist rules grid cells pos acc dv)

lemma case2Dir_false (rules : WFCRules) (grid : SpatialGrid)
    (cells : CellStore) (pos : Int × Int) (acc : List TileType × Bool)
    (dv : Direction × Int × Int)
    (h : (case2Dir rules grid cells pos acc dv).2 = false) :
    case2Dir rules grid cells pos acc dv = acc ∧ acc.2 = false := by
  cases hg : gridGet grid (pos.1 + dv.2.1, pos.2 + dv.2.2) with
  | none =>
    have he : case2Dir rules grid cells pos acc dv = acc := by simp [case2Dir, hg]
    rw [he] at h
    exact ⟨he, h⟩
  | some ne =>
    cases hc : getCell cells ne with
    | none =>
      have he : case2Dir rules grid cells pos acc dv = acc := by simp [case2Dir, hg, hc]
      rw [he] at h
      exact ⟨he, h⟩
    | some nc =>
      cases hcol : nc.is_collapsed with
      | false =>
        have he : case2Dir rules grid cells pos acc dv = acc := by
          simp [case2Dir, hg, hc, hcol]
        rw [he] at h
        exact ⟨he, h⟩
      | true =>
        cases ht : nc.tile_type with
        | none =>
          have he : case2Dir rules grid cells pos acc dv = acc := by
            simp [case2Dir, hg, hc, hcol, ht]
          rw [he] at h
          exact ⟨he, h⟩
        | some nt =>
          have he : case2Dir rules grid cells pos acc dv =
              (filter_valid_tiles acc.1 nt dv.1 rules,
               acc.2 || decide ((filter_valid_tiles acc.1 nt dv.1 rules).length ≠
                 acc.1.length)) := by
            simp [case2Dir, hg, hc, hcol, ht]
          rw [he] at h
          have hor : (acc.2 || decide ((filter_valid_tiles acc.1 nt dv.1 rules).length ≠
              acc.1.length)) = false := h
          obtain ⟨ha, hb⟩ := Bool.or_eq_false_iff.mp hor
          have hlen : (filter_valid_tiles acc.1 nt dv.1 rules).length = acc.1.length :=
            not_not.mp (of_decide_eq_false hb)
          have heq := filter_valid_tiles_eq_of_length hlen
          refine ⟨?_, ha⟩
          rw [he, heq]
          have hdec : decide (acc.1.length ≠ acc.1.length) = false := by simp
          rw [hdec, Bool.or_false]

lemma case2Fold_go_false (rules : WFCRules) (grid : SpatialGrid)
    (cells : CellStore) (pos : Int × Int) :
    ∀ (ds : List (Direction × Int × Int)) (acc : List TileType × Bool),
      (List.foldl (case2Dir rules grid cells pos) acc ds).2 = false →
      (List.foldl (case2Dir rules grid cells pos) acc ds).1 = acc.1 := by
  intro ds
  induction ds with
  | nil => intro acc h; rfl
  | cons dv rest ih =>
    intro acc h
    rw [List.foldl_cons] at h ⊢
    have hstep : (case2Dir rules grid cells pos acc dv).2 = false := by
      by_contra hne
      have htrue : (case2Dir rules grid cells pos acc dv).2 = true :=
        eq_true_of_ne_false hne
      have hmono : ∀ (ds2 : List (Direction × Int × Int)) (a2 : List TileType × Bool),
          a2.2 = true → (List.foldl (case2Dir rules grid cells pos) a2 ds2).2 = true := by
        intro ds2
        induction ds2 with
        | nil => intro a2 h2; exact h2
        | cons dv2 rest2 ih2 =>
          intro a2 h2
          rw [List.foldl_cons]
          refine ih2 _ ?_
          rcases case2Dir_eq rules grid cells pos a2 dv2 with he | ⟨nt, he⟩
          · rw [he]; exact h2
          · rw [he]
            simp [h2]
      rw [hmono rest _ htrue] at h
      exact Bool.noConfusion h
    obtain ⟨he, _⟩ := case2Dir_false rules grid cells pos acc dv hstep
    rw [he] at h ⊢
    exact ih acc h

lemma case2Dir_hit (rules : WFCRules) (grid : SpatialGrid) (cells : CellStore)
    (pos : Int × Int) (acc : List TileType × Bool) (dv : Direction × Int × Int)
    {ne : Nat} {nc : Cell} {t : TileType}
    (hg : gridGet grid (pos.1 + dv.2.1, pos.2 + dv.2.2) = some ne)
    (hc : getCell cells ne = some nc) (hcol : nc.is_collapsed = true)
    (ht : nc.tile_type = some t) :
    case2Dir rules grid cells pos acc dv =
      (filter_valid_tiles acc.1 t dv.1 rules,
       acc.2 || decide ((filter_valid_tiles acc.1 t dv.1 rules).length ≠
         acc.1.length)) := by
  simp [case2Dir, hg, hc, hcol, ht]

/-- After the CASE-2 fold, the resulting candidate list is compatible with
every collapsed tile-carrying neighbor reachable through a direction of the
fold. -/
lemma case2Fold_go_consistent (rules : WFCRules) (grid : SpatialGrid)
    (cells : CellStore) (pos : Int × Int) :
    ∀ (ds : List (Direction × Int × Int)) (acc : List TileType × Bool)
      (dv : Direction × Int × Int), dv ∈ ds →
      ∀ ne nc t, gridGet grid (pos.1 + dv.2.1, pos.2 + dv.2.2) = some ne →
        getCell cells ne = some nc → nc.is_collapsed = true →
        nc.tile_type = some t →
        ∀ x ∈ (List.foldl (case2Dir rules grid cells pos) acc ds).1,
          allowedOkB rules t (get_opposite_direction dv.1) x = true := by
  intro ds
  induction ds with
  | nil => intro acc dv hdv; simp at hdv
  | cons dv0 rest ih =>
    intro acc dv hdv ne nc t hg hc hcol ht x hx
    rw [List.foldl_cons] at hx
    rcases List.mem_cons.mp hdv with rfl | hdvr
    · have hstep := case2Dir_hit rules grid cells pos acc dv hg hc hcol ht
      have hsub := case2Fold_go_sublist rules grid cells pos rest
        (case2Dir rules grid cells pos acc dv)
      have hx2 : x ∈ (case2Dir rules grid cells pos acc dv).1 := hsub.subset hx
      rw [hstep] at hx2
      exact mem_filter_valid_tiles_allowedOkB hx2
    · exact ih (case2Dir rules grid cells pos acc dv0) dv hdvr ne nc t hg hc hcol ht x hx

lemma processCell_none_eq (rules : WFCRules) (grid : SpatialGrid) (e : Nat)
    (cells : CellStore) (hc : getCell cells e = none) :
    processCell rules grid e cells = (cells, []) := by
  simp [processCell, hc]

lemma processCell_collapsed_eq (rules : WFCRules) (grid : SpatialGrid) (e : Nat)
    (cells : CellStore) {cell : Cell} {tile : TileType}
    (hc : getCell cells e = some cell) (hcol : cell.is_collapsed = true)
    (ht : cell.tile_type = some tile) :
    processCell rules grid e cells = case1Fold rules grid tile cell.position cells := by
  simp [processCell, hc, hcol, ht]

lemma processCell_collapsed_notile (rules : WFCRules) (grid : SpatialGrid)
    (e : Nat) (cells : CellStore) {cell : Cell}
    (hc : getCell cells e = some cell) (hcol : cell.is_collapsed = true)
    (ht : cell.tile_type = none) :
    processCell rules grid e cells = (cells, []) := by
  simp [processCell, hc, hcol, ht]

lemma processCell_uncollapsed_eq (rules : WFCRules) (grid : SpatialGrid)
    (e : Nat) (cells : CellStore) {cell : Cell}
    (hc : getCell cells e = some cell) (hcol : cell.is_collapsed = false) :
    ((processCell rules grid e cells).1 = cells ∧
      (case2Fold rules grid cells cell.position cell.valid_tiles).1 = cell.valid_tiles) ∨
    (∃ newc : Cell, (processCell rules grid e cells).1 = setCell cells e newc ∧
      newc.is_collapsed = false ∧ newc.tile_type = cell.tile_type ∧
      newc.position = cell.position ∧
      (newc.valid_tiles = (case2Fold rules grid cells cell.position cell.valid_tiles).1 ∨
        newc.valid_tiles = [TileType.Ground])) := by
  by_cases hch : (case2Fold rules grid cells cell.position cell.valid_tiles).2 = true
  · right
    by_cases hcon : Cell.is_contradiction
        { is_collapsed := false, tile_type := cell.tile_type,
          entropy := (((case2Fold rules grid cells cell.position cell.valid_tiles).1).length : Int),
          valid_tiles := (case2Fold rules grid cells cell.position cell.valid_tiles).1,
          position := cell.position } = true
    · refine ⟨{ is_collapsed := false, tile_type := cell.tile_type, entropy := 1,
                valid_tiles := [TileType.Ground], position := cell.position }, ?_, rfl, rfl, rfl,
              Or.inr rfl⟩
      simp [processCell, hc, hcol, hch, hcon]
    · refine ⟨{ is_collapsed := false, tile_type := cell.tile_type,
                entropy := (((case2Fold rules grid cells cell.position cell.valid_tiles).1).length : Int),
                valid_tiles := (case2Fold rules grid cells cell.position cell.valid_tiles).1,
                position := cell.position }, ?_, rfl, rfl, rfl, Or.inl rfl⟩
      simp [processCell, hc, hcol, hch, hcon]
  · left
    have hfalse : (case2Fold rules grid cells cell.position cell.valid_tiles).2 = false :=
      Bool.eq_false_iff.mpr hch
    constructor
    · simp [processCell, hc, hcol, hfalse]
    · exact case2Fold_go_false rules grid cells cell.position DIRECTION_VECTORS
        (cell.valid_tiles, false) hfalse

lemma case1Dir_frame (rules : WFCRules) (grid : SpatialGrid) (tile : TileType)
    (pos : Int × Int) (acc : CellStore × List Nat) (dv : Direction × Int × Int) :
    StoreFrame acc.1 (case1Dir rules grid tile pos acc dv).1 := by
  cases hg : gridGet grid (pos.1 + dv.2.1, pos.2 + dv.2.2) with
  | none =>
    have he : case1Dir rules grid tile pos acc dv = acc := by simp [case1Dir, hg]
    rw [he]
    exact StoreFrame_refl _
  | some ne =>
    cases hc : getCell acc.1 ne with
    | none =>
      have he : case1Dir rules grid tile pos acc dv = acc := by simp [case1Dir, hg, hc]
      rw [he]
      exact StoreFrame_refl _
    | some nc =>
      cases hcol : nc.is_collapsed with
      | true =>
        have he : case1Dir rules grid tile pos acc dv = acc := by
          simp [case1Dir, hg, hc, hcol]
        rw [he]
        exact StoreFrame_refl _
      | false =>
        by_cases hcon : Cell.is_contradiction
            { is_collapsed := false, tile_type := nc.tile_type, entropy := nc.entropy,
              valid_tiles := filter_valid_tiles nc.valid_tiles tile dv.1 rules,
              position := nc.position } = true
        · have he : (case1Dir rules grid tile pos acc dv).1 =
              setCell acc.1 ne
                { is_collapsed := false, tile_type := nc.tile_type, entropy := 1,
                  valid_tiles := [TileType.Ground], position := nc.position } := by
            simp [case1Dir, hg, hc, hcol, hcon]
          rw [he]
          exact StoreFrame_setCell acc.1 ne hc (by simp [hcol]) rfl rfl (Or.inr rfl)
        · have he : (case1Dir rules grid tile pos acc dv).1 =
              setCell acc.1 ne
                { is_collapsed := false, tile_type := nc.tile_type, entropy := nc.entropy,
                  valid_tiles := filter_valid_tiles nc.valid_tiles tile dv.1 rules,
                  position := nc.position } := by
            simp [case1Dir, hg, hc, hcol, hcon]
          rw [he]
          exact StoreFrame_setCell acc.1 ne hc (by simp [hcol]) rfl rfl
            (Or.inl (filter_valid_tiles_sublist_aux _ _ _ _))

lemma foldl_case1Dir_frame (rules : WFCRules) (grid : SpatialGrid)
    (tile : TileType) (pos : Int × Int) :
    ∀ (ds : List (Direction × Int × Int)) (acc : CellStore × List Nat),
      StoreFrame acc.1 (List.foldl (case1Dir rules grid tile pos) acc ds).1 := by
  intro ds
  induction ds with
  | nil => intro acc; exact StoreFrame_refl _
  | cons dv rest ih =>
    intro acc
    rw [List.foldl_cons]
    exact StoreFrame_trans (case1Dir_frame rules grid tile pos acc dv)
      (ih (case1Dir rules grid tile pos acc dv))

lemma processCell_frame (rules : WFCRules) (grid : SpatialGrid) (e : Nat)
    (cells : CellStore) : StoreFrame cells (processCell rules grid e cells).1 := by
  cases hc : getCell cells e with
  | none =>
    rw [processCell_none_eq rules grid e cells hc]
    exact StoreFrame_refl _
  | some cell =>
    cases hcol : cell.is_collapsed with
    | true =>
      cases ht : cell.tile_type with
      | none =>
        rw [processCell_collapsed_notile rules grid e cells hc hcol ht]
        exact StoreFrame_refl _
      | some tile =>
        rw [processCell_collapsed_eq rules grid e cells hc hcol ht]
        exact foldl_case1Dir_frame rules grid tile cell.position DIRECTION_VECTORS (cells, [])
    | false =>
      rcases processCell_uncollapsed_eq rules grid e cells hc hcol with ⟨he, _⟩ | ⟨newc, he, h1, h2, h3, h4⟩
      · rw [he]
        exact StoreFrame_refl _
      · rw [he]
        refine StoreFrame_setCell cells e hc (h1.trans hcol.symm) h2 h3 ?_
        rcases h4 with h4 | h4
        · rw [h4]
          exact Or.inl (case2Fold_go_sublist rules grid cells cell.position
            DIRECTION_VECTORS (cell.valid_tiles, false))
        · exact Or.inr h4

lemma propagateGo_frame (rules : WFCRules) (grid : SpatialGrid) :
    ∀ (fuel : Nat) (queue : List Nat) (processed : Finset Nat)
      (cells cells2 : CellStore),
      propagateGo rules grid fuel queue processed cells = some cells2 →
      StoreFrame cells cells2 := by
  intro fuel
  induction fuel with
  | zero =>
    intro queue processed cells cells2 h
    cases queue with
    | nil =>
      cases h
      exact StoreFrame_refl _
    | cons e rest => exact Option.noConfusion h
  | succ n ih =>
    intro queue processed cells cells2 h
    cases queue with
    | nil =>
      cases h
      exact StoreFrame_refl _
    | cons e rest =>
      by_cases hmem : e ∈ processed
      · have heq : propagateGo rules grid (n + 1) (e :: rest) processed cells =
            propagateGo rules grid n rest processed cells := by
          simp only [propagateGo]
          rw [if_pos hmem]
        rw [heq] at h
        exact ih rest processed cells cells2 h
      · have heq : propagateGo rules grid (n + 1) (e :: rest) processed cells =
            propagateGo rules grid n (rest ++ (processCell rules grid e cells).2)
              (insert e processed) (processCell rules grid e cells).1 := by
          simp only [propagateGo]
          rw [if_neg hmem]
        rw [heq] at h
        exact StoreFrame_trans (processCell_frame rules grid e cells)
          (ih _ _ _ _ h)

/-- After the CASE-1 fold of a collapsed cell holding the given tile, every
uncollapsed neighbor reached through a direction of the fold is compatible
with the rule entry of the tile at the opposite of that direction. -/
lemma foldl_case1Dir_post (rules : WFCRules) (hgr : GroundPermissive rules)
    (grid : SpatialGrid) (tile : TileType) (pos : Int × Int) :
    ∀ (ds : List (Direction × Int × Int)) (acc : CellStore × List Nat)
      (dv : Direction × Int × Int), dv ∈ ds →
      ∀ ne nc2, gridGet grid (pos.1 + dv.2.1, pos.2 + dv.2.2) = some ne →
        getCell (List.foldl (case1Dir rules grid tile pos) acc ds).1 ne = some nc2 →
        nc2.is_collapsed = false →
        ∀ x ∈ nc2.valid_tiles,
          allowedOkB rules tile (get_opposite_direction dv.1) x = true := by
  intro ds
  induction ds with
  | nil => intro acc dv hdv; simp at hdv
  | cons dv0 rest ih =>
    intro acc dv hdv ne nc2 hg hfin hcol2 x hx
    rw [List.foldl_cons] at hfin
    rcases List.mem_cons.mp hdv with rfl | hdvr
    · cases hc : getCell acc.1 ne with
      | none =>
        have he : case1Dir rules grid tile pos acc dv = acc := by
          simp [case1Dir, hg, hc]
        rw [he] at hfin
        have hfr := foldl_case1Dir_frame rules grid tile pos rest acc
        have hnone : getCell (List.foldl (case1Dir rules grid tile pos) acc rest).1 ne =
            none := ((hfr ne).1).mpr hc
        rw [hnone] at hfin
        exact Option.noConfusion hfin
      | some nc =>
        cases hcol : nc.is_collapsed with
        | true =>
          have he : case1Dir rules grid tile pos acc dv = acc := by
            simp [case1Dir, hg, hc, hcol]
          rw [he] at hfin
          have hfr := foldl_case1Dir_frame rules grid tile pos rest acc
          obtain ⟨c, hcc, hcoleq, _, _, _⟩ := (hfr ne).2 nc2 hfin
          rw [hc] at hcc
          cases hcc
          rw [hcol2, hcol] at hcoleq
          exact Bool.noConfusion hcoleq
        | false =>
          by_cases hcon : Cell.is_contradiction
              { is_collapsed := false, tile_type := nc.tile_type, entropy := nc.entropy,
                valid_tiles := filter_valid_tiles nc.valid_tiles tile dv.1 rules,
                position := nc.position } = true
          · have he : (case1Dir rules grid tile pos acc dv).1 =
                setCell acc.1 ne
                  { is_collapsed := false, tile_type := nc.tile_type, entropy := 1,
                    valid_tiles := [TileType.Ground], position := nc.position } := by
              simp [case1Dir, hg, hc, hcol, hcon]
            have hfr := foldl_case1Dir_frame rules grid tile pos rest
              (case1Dir rules grid tile pos acc dv)
            obtain ⟨c, hcc, _, _, _, hvt⟩ := (hfr ne).2 nc2 hfin
            rw [he, getCell_setCell, if_pos rfl, hc] at hcc
            have hcX := Option.some.inj hcc
            rw [← hcX] at hvt
            refine respects_mono hgr hvt ?_ x hx
            intro y hy
            rcases List.mem_singleton.mp hy with rfl
            exact ground_allowedOkB hgr tile (get_opposite_direction dv.1)
          · have he : (case1Dir rules grid tile pos acc dv).1 =
                setCell acc.1 ne
                  { is_collapsed := false, tile_type := nc.tile_type, entropy := nc.entropy,
                    valid_tiles := filter_valid_tiles nc.valid_tiles tile dv.1 rules,
                    position := nc.position } := by
              simp [case1Dir, hg, hc, hcol, hcon]
            have hfr := foldl_case1Dir_frame rules grid tile pos rest
              (case1Dir rules grid tile pos acc dv)
            obtain ⟨c, hcc, _, _, _, hvt⟩ := (hfr ne).2 nc2 hfin
            rw [he, getCell_setCell, if_pos rfl, hc] at hcc
            have hcX := Option.some.inj hcc
            rw [← hcX] at hvt
            refine respects_mono hgr hvt ?_ x hx
            intro y hy
            exact mem_filter_valid_tiles_allowedOkB hy
    · exact ih (case1Dir rules grid tile pos acc dv0) dv hdvr ne nc2 hg hfin hcol2 x hx

lemma direction_vectors_opp :
    ∀ dv ∈ DIRECTION_VECTORS, ∃ dv2, dv2 ∈ DIRECTION_VECTORS ∧
      dv2.1 = get_opposite_direction dv.1 ∧ dv2.2.1 = -dv.2.1 ∧ dv2.2.2 = -dv.2.2 := by
  decide

lemma pending_nil_arc {rules : WFCRules} {grid : SpatialGrid}
    {processed : Finset Nat} {cells : CellStore}
    (hpend : PendingInvariant rules grid [] processed cells) :
    ArcConsistent rules grid cells := by
  intro eC cC dv eN cN t hC hCcol hdv hgrid hN hNcol hNt
  rcases hpend eC cC dv eN cN t hC hCcol hdv hgrid hN hNcol hNt with
    hok | ⟨hin, _⟩ | ⟨hin, _⟩
  · exact hok
  · simp at hin
  · simp at hin

lemma propagateGo_pending (rules : WFCRules) (hsym : SymmetricRules rules)
    (hgr : GroundPermissive rules) (grid : SpatialGrid) :
    ∀ (fuel : Nat) (queue : List Nat) (processed : Finset Nat)
      (cells cells2 : CellStore),
      GridCoherent grid cells →
      PendingInvariant rules grid queue processed cells →
      propagateGo rules grid fuel queue processed cells = some cells2 →
      ArcConsistent rules grid cells2 := by
  intro fuel
  induction fuel with
  | zero =>
    intro queue processed cells cells2 hcoh hpend hrun
    cases queue with
    | nil =>
      cases hrun
      exact pending_nil_arc hpend
    | cons e rest => exact Option.noConfusion hrun
  | succ n ih =>
    intro queue processed cells cells2 hcoh hpend hrun
    cases queue with
    | nil =>
      cases hrun
      exact pending_nil_arc hpend
    | cons e rest =>
      by_cases hmem : e ∈ processed
      · have heq : propagateGo rules grid (n + 1) (e :: rest) processed cells =
            propagateGo rules grid n rest processed cells := by
          simp only [propagateGo]
          rw [if_pos hmem]
        rw [heq] at hrun
        refine ih rest processed cells cells2 hcoh ?_ hrun
        intro eC cC dv eN cN t hC hCcol hdv hgrid hN hNcol hNt
        rcases hpend eC cC dv eN cN t hC hCcol hdv hgrid hN hNcol hNt with
          hok | ⟨hin, hnp⟩ | ⟨hin, hnp⟩
        · exact Or.inl hok
        · refine Or.inr (Or.inl ⟨?_, hnp⟩)
          rcases List.mem_cons.mp hin with rfl | h
          · exact absurd hmem hnp
          · exact h
        · refine Or.inr (Or.inr ⟨?_, hnp⟩)
          rcases List.mem_cons.mp hin with rfl | h
          · exact absurd hmem hnp
          · exact h
      · have heq : propagateGo rules grid (n + 1) (e :: rest) processed cells =
            propagateGo rules grid n (rest ++ (processCell rules grid e cells).2)
              (insert e processed) (processCell rules grid e cells).1 := by
          simp only [propagateGo]
          rw [if_neg hmem]
        rw [heq] at hrun
        have hfr := processCell_frame rules grid e cells
        refine ih (rest ++ (processCell rules grid e cells).2) (insert e processed)
          (processCell rules grid e cells).1 cells2
          (GridCoherent_frame hcoh hfr) ?_ hrun
        intro eC cC2 dv eN cN2 t hC2 hCcol2 hdv hgrid2 hN2 hNcol2 hNt2
        obtain ⟨cC, hC, hCcoleq, hCtile, hCpos, hCvt⟩ := (hfr eC).2 cC2 hC2
        obtain ⟨cN, hN, hNcoleq, hNtile, hNpos, hNvt⟩ := (hfr eN).2 cN2 hN2
        have hCcol : cC.is_collapsed = false := hCcoleq.symm.trans hCcol2
        have hNcol : cN.is_collapsed = true := hNcoleq.symm.trans hNcol2
        have hNt : cN.tile_type = some t := hNtile.symm.trans hNt2
        rw [hCpos] at hgrid2
        rcases hpend eC cC dv eN cN t hC hCcol hdv hgrid2 hN hNcol hNt with
          hok | ⟨hin, hnp⟩ | ⟨hin, hnp⟩
        · exact Or.inl (respects_mono hgr hCvt hok)
        · by_cases heN : eN = e
          · subst heN
            refine Or.inl ?_
            have hpc := processCell_collapsed_eq rules grid eN cells hN hNcol hNt
            obtain ⟨dv2, hdv2mem, hdv2dir, hdv2x, hdv2z⟩ := direction_vectors_opp dv hdv
            have hNposC : cN.position =
                (cC.position.1 + dv.2.1, cC.position.2 + dv.2.2) :=
              hcoh.1 _ eN cN hgrid2 hN
            have hgc : gridGet grid
                (cN.position.1 + dv2.2.1, cN.position.2 + dv2.2.2) = some eC := by
              have h2 := hcoh.2 eC cC hC
              rw [hNposC, hdv2x, hdv2z]
              simpa using h2
            have hfin : getCell
                (List.foldl (case1Dir rules grid t cN.position) (cells, [])
                  DIRECTION_VECTORS).1 eC = some cC2 := by
              have := hC2
              rw [hpc] at this
              exact this
            intro x hxm
            have hpost := foldl_case1Dir_post rules hgr grid t cN.position
              DIRECTION_VECTORS (cells, []) dv2 hdv2mem eC cC2 hgc hfin hCcol2 x hxm
            rw [hdv2dir, get_opposite_direction_involutive] at hpost
            exact hpost
          · refine Or.inr (Or.inl ⟨?_, ?_⟩)
            · rcases List.mem_cons.mp hin with h | h
              · exact absurd h heN
              · exact List.mem_append.mpr (Or.inl h)
            · intro hmem2
              rcases Finset.mem_insert.mp hmem2 with h | h
              · exact heN h
              · exact hnp h
        · by_cases heC : eC = e
          · subst heC
            refine Or.inl ?_
            rcases processCell_uncollapsed_eq rules grid eC cells hC hCcol with
              ⟨hunch, hfoldeq⟩ | ⟨newc, hset, hnc1, hnc2, hnc3, hnc4⟩
            · have hceq : cC2 = cC := by
                rw [hunch, hC] at hC2
                exact (Option.some.inj hC2).symm
              intro x hxm
              have hxm2 : x ∈ (case2Fold rules grid cells cC.position cC.valid_tiles).1 := by
                rw [hfoldeq]
                rw [hceq] at hxm
                exact hxm
              have hres := case2Fold_go_consistent rules grid cells cC.position
                DIRECTION_VECTORS (cC.valid_tiles, false) dv hdv eN cN t
                hgrid2 hN hNcol hNt x hxm2
              rw [allowedOkB_opp hsym] at hres
              exact hres
            · have hceq : cC2 = newc := by
                rw [hset, getCell_setCell, if_pos rfl, hC] at hC2
                exact (Option.some.inj hC2).symm
              intro x hxm
              rw [hceq] at hxm
              rcases hnc4 with h4 | h4
              · rw [h4] at hxm
                have hres := case2Fold_go_consistent rules grid cells cC.position
                  DIRECTION_VECTORS (cC.valid_tiles, false) dv hdv eN cN t
                  hgrid2 hN hNcol hNt x hxm
                rw [allowedOkB_opp hsym] at hres
                exact hres
              · rw [h4] at hxm
                rcases List.mem_singleton.mp hxm with rfl
                exact ground_allowedOkB hgr t dv.1
          · refine Or.inr (Or.inr ⟨?_, ?_⟩)
            · rcases List.mem_cons.mp hin with h | h
              · exact absurd h heC
              · exact List.mem_append.mpr (Or.inl h)
            · intro hmem2
              rcases Finset.mem_insert.mp hmem2 with h | h
              · exact heC h
              · exact hnp h

lemma gridGet_mem {grid : SpatialGrid} {pos : Int × Int} {e : Nat}
    (h : gridGet grid pos = some e) : (pos, e) ∈ grid := by
  induction grid with
  | nil => exact Option.noConfusion h
  | cons q rest ih =>
    unfold gridGet at h
    by_cases hq : q.1 = pos
    · rw [if_pos hq] at h
      cases h
      have : q = (pos, q.2) := by
        rw [← hq]
      rw [← this]
      exact List.mem_cons_self q rest
    · rw [if_neg hq] at h
      exact List.mem_cons_of_mem q (ih h)

lemma getCell_mem {cells : CellStore} {e : Nat} {c : Cell}
    (h : getCell cells e = some c) : (e, c) ∈ cells := by
  induction cells with
  | nil => exact Option.noConfusion h
  | cons q rest ih =>
    unfold getCell at h
    by_cases hq : q.1 = e
    · rw [if_pos hq] at h
      cases h
      have : q = (e, q.2) := by
        rw [← hq]
      rw [← this]
      exact List.mem_cons_self q rest
    · rw [if_neg hq] at h
      exact List.mem_cons_of_mem q (ih h)

/-- A decidable sufficient condition for GridCoherent on concrete states. -/
lemma gridCoherent_of_checks (grid : SpatialGrid) (cells : CellStore)
    (h1 : ∀ kv ∈ grid,
      Option.all (fun c => decide (c.position = kv.1)) (getCell cells kv.2) = true)
    (h2 : ∀ p ∈ cells, gridGet grid p.2.position = some p.1) :
    GridCoherent grid cells := by
  constructor
  · intro pos e c hg hc
    have hmem := gridGet_mem hg
    have := h1 (pos, e) hmem
    rw [hc] at this
    simpa using this
  · intro e c hc
    exact h2 (e, c) (getCell_mem hc)

/-- A decidable sufficient condition for the pending invariant on concrete
initial states: every collapsed tile-carrying neighbor of an uncollapsed
cell is queued. -/
lemma pendingInvariant_of_checks (rules : WFCRules) (grid : SpatialGrid)
    (queue : List Nat) (cells : CellStore)
    (h : ∀ p ∈ cells, p.2.is_collapsed = false →
      ∀ dv ∈ DIRECTION_VECTORS,
        Option.all (fun ne =>
          Option.all (fun nc =>
            !nc.is_collapsed || nc.tile_type.isNone || decide (ne ∈ queue))
            (getCell cells ne))
          (gridGet grid (p.2.position.1 + dv.2.1, p.2.position.2 + dv.2.2)) = true) :
    PendingInvariant rules grid queue ∅ cells := by
  intro eC cC dv eN cN t hC hCcol hdv hgrid hN hNcol hNt
  refine Or.inr (Or.inl ⟨?_, by simp⟩)
  have hmem := getCell_mem hC
  have hcheck := h (eC, cC) hmem hCcol dv hdv
  rw [hgrid] at hcheck
  simp only [Option.all_some] at hcheck
  rw [hN] at hcheck
  simp only [Option.all_some, hNcol, hNt] at hcheck
  simpa using hcheck

/-- C1 (amended): after the propagation queue drains, local arc-consistency
holds — for every live uncollapsed cell C and every direction D such that
the cell N at C.position + D exists in the spatial index and is collapsed
to tile T, every tile remaining in C.valid_tiles is compatible with the
rule entry allowed_neighbors[T][D] — provided that (i) the rule table is
symmetric under direction reversal (so the two lookup conventions of the
engine coincide), (ii) every allowed list contains the Ground fallback tile
(so forced contradiction resolutions stay consistent), (iii) the spatial
index agrees with the cell positions, and (iv) initially every
(uncollapsed cell, collapsed neighbor) pair is consistent or has an
endpoint pending in the queue. The counterexample theorem shows the
unamended claim fails on the authored rule table, which violates (i) and
(ii). -/
theorem propagation_arc_consistency (rules : WFCRules) (grid : SpatialGrid)
    (queue : List Nat) (cells cells2 : CellStore) (fuel : Nat)
    (hsym : SymmetricRules rules) (hgr : GroundPermissive rules)
    (hcoh : GridCoherent grid cells)
    (hpend : PendingInvariant rules grid queue ∅ cells)
    (hrun : propagateGo rules grid fuel queue ∅ cells = some cells2) :
    ArcConsistent rules grid cells2 :=
  propagateGo_pending rules hsym hgr grid fuel queue ∅ cells cells2 hcoh hpend hrun

/-- Initial state of the C1 counterexample: a FountainCenter cell at (0, 0)
and a Chest cell at (0, 2), both collapsed and queued, with a fresh
full-candidate cell between them at (0, 1). -/
def arcCexCells : CellStore :=
  [(0, { is_collapsed := true, tile_type := some TileType.FountainCenter, entropy := 0,
         valid_tiles := [TileType.FountainCenter], position := (0, 0) }),
   (1, { is_collapsed := true, tile_type := some TileType.Chest, entropy := 0,
         valid_tiles := [TileType.Chest], position := (0, 2) }),
   (2, Cell.new openSpaceRules.all_tiles (0, 1))]

/-- Spatial index of the C1 counterexample. -/
def arcCexGrid : SpatialGrid := [((0, 0), 0), ((0, 2), 1), ((0, 1), 2)]

/-- The state the drain leaves behind on the counterexample input: the
middle cell ran into a contradiction and was reset to [Ground]. -/
def arcCexFinal : CellStore :=
  [(0, { is_collapsed := true, tile_type := some TileType.FountainCenter, entropy := 0,
         valid_tiles := [TileType.FountainCenter], position := (0, 0) }),
   (1, { is_collapsed := true, tile_type := some TileType.Chest, entropy := 0,
         valid_tiles := [TileType.Chest], position := (0, 2) }),
   (2, { is_collapsed := false, tile_type := none, entropy := 1,
         valid_tiles := [TileType.Ground], position := (0, 1) })]

/-- C1 counterexample: on an engine-honest initial state (coherent index,
every collapsed cell queued) over the authored rule table, the drain
terminates with the middle cell holding [Ground] next to the collapsed
FountainCenter cell, whose rule entries toward it (in either direction
convention) do not allow Ground: local arc-consistency does NOT hold after
the queue drains. -/
theorem arc_consistency_counterexample :
    GridCoherent arcCexGrid arcCexCells ∧
    PendingInvariant openSpaceRules arcCexGrid [0, 1] ∅ arcCexCells ∧
    propagateGo openSpaceRules arcCexGrid 20 [0, 1] ∅ arcCexCells = some arcCexFinal ∧
    ¬ ArcConsistent openSpaceRules arcCexGrid arcCexFinal := by
  refine ⟨gridCoherent_of_checks _ _ (by decide) (by decide),
          pendingInvariant_of_checks _ _ _ _ (by decide), by decide, ?_⟩
  intro h
  have hbad := h 2
    { is_collapsed := false, tile_type := none, entropy := 1,
      valid_tiles := [TileType.Ground], position := (0, 1) }
    (Direction.Back, 0, -1) 0
    { is_collapsed := true, tile_type := some TileType.FountainCenter, entropy := 0,
      valid_tiles := [TileType.FountainCenter], position := (0, 0) }
    TileType.FountainCenter
    (by decide) (by decide) (by decide) (by decide) (by decide) (by decide) (by decide)
    TileType.Ground (by decide)
  exact absurd hbad (by decide)

/-- A direction-uniform, Ground-permissive rule table for the C1 witness. -/
def groundTreeRules : WFCRules :=
  { allowed_neighbors := fun _ _ => some [TileType.Ground, TileType.Tree]
    all_tiles := [TileType.Ground, TileType.Tree, TileType.Chest]
    weights := fun _ => none }

/-- Initial cells of the C1 witness: a collapsed, queued Tree cell and a
fresh neighbor. -/
def arcWitnessCells : CellStore :=
  [(0, { is_collapsed := true, tile_type := some TileType.Tree, entropy := 0,
         valid_tiles := [TileType.Tree], position := (0, 0) }),
   (1, { is_collapsed := false, tile_type := none, entropy := 3,
         valid_tiles := [TileType.Ground, TileType.Tree, TileType.Chest],
         position := (0, 1) })]

/-- Spatial index of the C1 witness. -/
def arcWitnessGrid : SpatialGrid := [((0, 0), 0), ((0, 1), 1)]

/-- The store the drain produces on the witness input. -/
def arcWitnessFinal : CellStore :=
  [(0, { is_collapsed := true, tile_type := some TileType.Tree, entropy := 0,
         valid_tiles := [TileType.Tree], position := (0, 0) }),
   (1, { is_collapsed := false, tile_type := none, entropy := 3,
         valid_tiles := [TileType.Ground, TileType.Tree], position := (0, 1) })]

/-- Witness for the amended C1 at a concrete symmetric, Ground-permissive
table and a concrete two-cell state. -/
theorem propagation_arc_consistency_witness :
    ArcConsistent groundTreeRules arcWitnessGrid arcWitnessFinal := by
  refine propagation_arc_consistency groundTreeRules arcWitnessGrid [0]
    arcWitnessCells arcWitnessFinal 10 (fun t d => rfl) ?_
    (gridCoherent_of_checks _ _ (by decide) (by decide))
    (pendingInvariant_of_checks _ _ _ _ (by decide)) (by decide)
  intro t d l h
  have hl : l = [TileType.Ground, TileType.Tree] := (Option.some.inj h).symm
  rw [hl]
  decide

end VoidWFC
